import Mathlib

/-!
# Prompt-Blocks: the workflow engine, the block invoker and the output sanitizer

A shallow embedding of `utils.js`, `block_registry.js`, `block_executor.js` and
`workflow_engine.js`.

* JavaScript strings are sequences of UTF-16 code units (`JsString`); `utf16`
  turns a Lean string literal into one.
* JSON values are the values `JSON.parse` can build (`JVal`); `undefined` is
  `none : Option JVal`.
* A function that can throw returns `Except JsErr _`.
* What ECMA-262 leaves to the engine (the digits of `Number::toString`, the
  rounding of a number literal to a double, the text of a `TypeError`, the
  locale of `toLocaleString`) is a parameter, `Host`.
-/

namespace PromptBlocks

/-! ## JavaScript strings -/

/-- A JavaScript string: its UTF-16 code units. -/
abbrev JsString := List Nat

/-- The UTF-16 code units of one Unicode scalar value. -/
def encodeUtf16 (c : Char) : JsString :=
  if c.toNat < 65536 then [c.toNat]
  else [55296 + (c.toNat - 65536) / 1024, 56320 + (c.toNat - 65536) % 1024]

/-- The JavaScript string written by a Lean string literal. -/
def utf16 (s : String) : JsString :=
  (s.toList.map encodeUtf16).flatten

/-- Decimal digits of a natural number, as `String(n)` prints an integer. -/
def decimal (n : Nat) : JsString :=
  (Nat.toDigits 10 n).map Char.toNat

/-- ECMA-262 WhiteSpace and LineTerminator code units: what `String.prototype.trim`
removes and what `\s` matches. -/
def isWhiteSpace (c : Nat) : Bool :=
  c == 9 || c == 10 || c == 11 || c == 12 || c == 13 || c == 32 || c == 160 ||
  c == 5760 || (8192 ≤ c && c ≤ 8202) || c == 8232 || c == 8233 || c == 8239 ||
  c == 8287 || c == 12288 || c == 65279

/-- The method `String.prototype.trim`. -/
def trim (s : JsString) : JsString :=
  (s.dropWhile isWhiteSpace).rdropWhile isWhiteSpace

/-- The method `String.prototype.startsWith`. -/
def startsWith (s pat : JsString) : Bool := pat.isPrefixOf s

/-- The method `String.prototype.endsWith`. -/
def endsWith (s pat : JsString) : Bool := pat.isSuffixOf s

/-- The method `String.prototype.includes`. -/
def includes : JsString → JsString → Bool
  | [], pat => pat.isEmpty
  | c :: cs, pat => pat.isPrefixOf (c :: cs) || includes cs pat

/-- Worker of `removeAll`: `fuel` bounds the number of positions still to visit. -/
def removeAllFuel (pat : JsString) : Nat → JsString → JsString
  | 0, s => s
  | _ + 1, [] => []
  | n + 1, c :: cs =>
    if pat.isPrefixOf (c :: cs) then
      removeAllFuel pat n (((c :: cs).drop pat.length).dropWhile isWhiteSpace)
    else c :: removeAllFuel pat n cs

/-- The call `s.replace(/<pat>\s*/g, '')` for a non-empty literal `pat`: scanning
left to right, every occurrence of `pat` is deleted together with the white
space that follows it, and the scan resumes after the deleted text. -/
def removeAll (pat s : JsString) : JsString :=
  removeAllFuel pat s.length s

/-- Three backticks. -/
def fence : JsString := [96, 96, 96]

/-- Three backticks followed by `json`. -/
def fenceJson : JsString := [96, 96, 96, 106, 115, 111, 110]

/-! ## JSON values -/

/-- The values `JSON.parse` builds. A number keeps its literal: its double is
the host's business. An object keeps its properties in creation order. -/
inductive JVal where
  | null
  | bool (b : Bool)
  | num (lit : JsString)
  | str (s : JsString)
  | arr (xs : List JVal)
  | obj (props : List (JsString × JVal))

/-- A JavaScript value that is a JSON value or `undefined` (`none`). -/
abbrev JsValue := Option JVal

/-- The kinds of `TypeError` the modelled code can raise. -/
inductive TypeErrorKind where
  | notAFunction
  | propertyOfNullish
  | notPrimitive

/-- One step of a workflow, as `executeWorkflow` records it. -/
structure StepResult where
  blockId : JsString
  blockName : JsString
  input : JsString
  output : JsString
  success : Bool
  error : Option JsString

/-- A thrown error object: its `name`, its `message`, and what reading its
`partialResults` property gives (`none` is `undefined`). -/
structure JsErr where
  name : JsString
  message : JsString
  partialResults : Option (List StepResult)

/-- What the engine and its locale decide. -/
structure Host where
  /-- Whether a JSON number literal denotes `0` or `-0` as a double. -/
  numberIsZero : JsString → Bool
  /-- Whether a JSON number literal denotes a finite double. -/
  numberIsFinite : JsString → Bool
  /-- The result of `String(x)` for the double of a JSON number literal. -/
  numberToString : JsString → JsString
  /-- The message of a `TypeError` of the given kind. -/
  typeErrorMessage : TypeErrorKind → JsString
  /-- The result of `(10000).toLocaleString()`. -/
  maxLengthText : JsString

/-- The expression `new Error(message)`. -/
def newError (message : JsString) : JsErr :=
  { name := utf16 "Error", message := message, partialResults := none }

/-- A `TypeError` raised by the engine. -/
def typeError (host : Host) (kind : TypeErrorKind) : JsErr :=
  { name := utf16 "TypeError", message := host.typeErrorMessage kind,
    partialResults := none }

/-! ## `JSON.parse` -/

/-- JSON tokens. -/
inductive Token where
  | lbrace | rbrace | lbracket | rbracket | colon | comma
  | str (s : JsString)
  | num (lit : JsString)
  | tru | fls | nul

/-- The state of the tokenizer between two code units. -/
inductive LexState where
  | idle
  | word (acc : JsString)
  | number (acc : JsString)
  | string (acc : JsString)
  | escape (acc : JsString)
  | unicode (acc : JsString) (hex : List Nat)

def isDigit (c : Nat) : Bool := 48 ≤ c && c ≤ 57

def isLower (c : Nat) : Bool := 97 ≤ c && c ≤ 122

/-- Code units that can occur in a JSON number: digits, `+`, `-`, `.`, `e`, `E`. -/
def isNumberChar (c : Nat) : Bool :=
  isDigit c || c == 43 || c == 45 || c == 46 || c == 101 || c == 69

/-- JSON white space: tab, line feed, carriage return, space. -/
def isJsonSpace (c : Nat) : Bool := c == 9 || c == 10 || c == 13 || c == 32

def hexValue (c : Nat) : Option Nat :=
  if isDigit c then some (c - 48)
  else if 97 ≤ c && c ≤ 102 then some (c - 87)
  else if 65 ≤ c && c ≤ 70 then some (c - 55)
  else none

/-- The exponent part of a JSON number, or nothing. -/
def exponentOk : JsString → Bool
  | [] => true
  | e :: r =>
    (e == 101 || e == 69) &&
      (match (match r with
          | 43 :: t => t
          | 45 :: t => t
          | _ => r) with
        | [] => false
        | d :: t => isDigit d && t.all isDigit)

/-- The fraction and exponent parts of a JSON number, or nothing. -/
def fractionOk : JsString → Bool
  | 46 :: r =>
    (match r with
      | [] => false
      | d :: t => isDigit d && exponentOk (t.dropWhile isDigit))
  | r => exponentOk r

/-- The JSON number grammar: `-? (0 | [1-9][0-9]*) (. [0-9]+)? ([eE] [+-]? [0-9]+)?`. -/
def numberOk (s : JsString) : Bool :=
  match (match s with
      | 45 :: r => r
      | _ => s) with
  | [] => false
  | 48 :: r => fractionOk r
  | c :: r => isDigit c && fractionOk (r.dropWhile isDigit)

def keyword (w : JsString) : Option Token :=
  if w = utf16 "true" then some .tru
  else if w = utf16 "false" then some .fls
  else if w = utf16 "null" then some .nul
  else none

/-- A code unit met between two tokens. -/
def lexIdle (c : Nat) : Option (LexState × List Token) :=
  if isJsonSpace c then some (.idle, [])
  else if c = 123 then some (.idle, [.lbrace])
  else if c = 125 then some (.idle, [.rbrace])
  else if c = 91 then some (.idle, [.lbracket])
  else if c = 93 then some (.idle, [.rbracket])
  else if c = 58 then some (.idle, [.colon])
  else if c = 44 then some (.idle, [.comma])
  else if c = 34 then some (.string [], [])
  else if c = 45 || isDigit c then some (.number [c], [])
  else if isLower c then some (.word [c], [])
  else none

/-- The code unit an escape letter stands for (`u` is handled apart). -/
def escapeValue (c : Nat) : Option Nat :=
  if c = 34 then some 34
  else if c = 92 then some 92
  else if c = 47 then some 47
  else if c = 98 then some 8
  else if c = 102 then some 12
  else if c = 110 then some 10
  else if c = 114 then some 13
  else if c = 116 then some 9
  else none

/-- One code unit of input: the next state and the tokens completed by it. -/
def lexStep : LexState → Nat → Option (LexState × List Token)
  | .idle, c => lexIdle c
  | .word acc, c =>
    if isLower c then some (.word (acc ++ [c]), [])
    else
      match keyword acc, lexIdle c with
      | some t, some (st, ts) => some (st, t :: ts)
      | _, _ => none
  | .number acc, c =>
    if isNumberChar c then some (.number (acc ++ [c]), [])
    else if numberOk acc then
      match lexIdle c with
      | some (st, ts) => some (st, .num acc :: ts)
      | none => none
    else none
  | .string acc, c =>
    if c = 34 then some (.idle, [.str acc])
    else if c = 92 then some (.escape acc, [])
    else if c < 32 then none
    else some (.string (acc ++ [c]), [])
  | .escape acc, c =>
    if c = 117 then some (.unicode acc [], [])
    else
      match escapeValue c with
      | some v => some (.string (acc ++ [v]), [])
      | none => none
  | .unicode acc hex, c =>
    match hexValue c with
    | none => none
    | some v =>
      if hex.length = 3 then
        some (.string (acc ++ [(hex ++ [v]).foldl (fun a d => 16 * a + d) 0]), [])
      else some (.unicode acc (hex ++ [v]), [])

/-- The end of the input. -/
def lexEnd : LexState → Option (List Token)
  | .idle => some []
  | .word acc => (keyword acc).map fun t => [t]
  | .number acc => if numberOk acc then some [.num acc] else none
  | _ => none

/-- The tokens of a text, or `none` when it is not made of JSON tokens. -/
def tokenize : LexState → JsString → Option (List Token)
  | st, [] => lexEnd st
  | st, c :: cs =>
    match lexStep st c with
    | none => none
    | some (st', ts) =>
      match tokenize st' cs with
      | none => none
      | some rest => some (ts ++ rest)

/-- The step `CreateDataProperty`: a new key is appended, an existing key keeps
its place and takes the new value. -/
def setProperty : List (JsString × JVal) → JsString → JVal → List (JsString × JVal)
  | [], k, v => [(k, v)]
  | (k', v') :: rest, k, v =>
    if k' = k then (k', v) :: rest else (k', v') :: setProperty rest k v

/-- An array or object under construction. -/
inductive Frame where
  | arr (revElems : List JVal)
  | obj (props : List (JsString × JVal)) (key : Option JsString)

/-- What the parser expects next. -/
inductive ParseState where
  | value
  | valueOrEnd
  | keyOrEnd
  | key
  | colon (k : JsString)
  | afterValue
  | done (v : JVal)

/-- A value is complete: it is the result, or goes into the enclosing frame. -/
def complete (v : JVal) : List Frame → Option (ParseState × List Frame)
  | [] => some (.done v, [])
  | .arr es :: st => some (.afterValue, .arr (v :: es) :: st)
  | .obj ps (some k) :: st => some (.afterValue, .obj (setProperty ps k v) none :: st)
  | .obj _ none :: _ => none

/-- A token where a value may start. -/
def parseValueToken (stack : List Frame) : Token → Option (ParseState × List Frame)
  | .str s => complete (.str s) stack
  | .num lit => complete (.num lit) stack
  | .tru => complete (.bool true) stack
  | .fls => complete (.bool false) stack
  | .nul => complete .null stack
  | .lbracket => some (.valueOrEnd, .arr [] :: stack)
  | .lbrace => some (.keyOrEnd, .obj [] none :: stack)
  | _ => none

/-- A closing bracket or brace. -/
def closeFrame : Token → List Frame → Option (ParseState × List Frame)
  | .rbracket, .arr es :: st => complete (.arr es.reverse) st
  | .rbrace, .obj ps none :: st => complete (.obj ps) st
  | _, _ => none

/-- One token of input. -/
def parseStep : ParseState × List Frame → Token → Option (ParseState × List Frame)
  | (.value, stack), t => parseValueToken stack t
  | (.valueOrEnd, stack), t =>
    match t with
    | .rbracket => closeFrame t stack
    | _ => parseValueToken stack t
  | (.keyOrEnd, stack), t =>
    match t with
    | .str k => some (.colon k, stack)
    | .rbrace => closeFrame t stack
    | _ => none
  | (.key, stack), t =>
    match t with
    | .str k => some (.colon k, stack)
    | _ => none
  | (.colon k, stack), t =>
    match t, stack with
    | .colon, .obj ps none :: st => some (.value, .obj ps (some k) :: st)
    | _, _ => none
  | (.afterValue, stack), t =>
    match t, stack with
    | .comma, .arr es :: st => some (.value, .arr es :: st)
    | .comma, .obj ps none :: st => some (.key, .obj ps none :: st)
    | .rbracket, _ => closeFrame t stack
    | .rbrace, _ => closeFrame t stack
    | _, _ => none
  | (.done _, _), _ => none

/-- All tokens of the input. -/
def parseTokens : ParseState × List Frame → List Token → Option JVal
  | (.done v, []), [] => some v
  | _, [] => none
  | st, t :: ts =>
    match parseStep st t with
    | none => none
    | some st' => parseTokens st' ts

/-- The function `JSON.parse` without a reviver: `none` is a `SyntaxError`. -/
def jsonParse (s : JsString) : Option JVal :=
  match tokenize .idle s with
  | none => none
  | some ts => parseTokens (.value, []) ts

/-! ## Conversions of JSON values -/

/-- The own property `key` of an object; `none` is `undefined`. Arrays and
primitives have no property of the names read by the modelled code. -/
def getProperty (v : JVal) (key : JsString) : JsValue :=
  match v with
  | .obj props => props.lookup key
  | _ => none

/-- The conversion `ToBoolean`. -/
def truthy (host : Host) : JsValue → Bool
  | none => false
  | some .null => false
  | some (.bool b) => b
  | some (.num lit) => !host.numberIsZero lit
  | some (.str s) => !s.isEmpty
  | some (.arr _) => true
  | some (.obj _) => true

/-- Joins strings with a separator. -/
def joinStrings (sep : JsString) : List JsString → JsString
  | [] => []
  | [s] => s
  | s :: rest => s ++ sep ++ joinStrings sep rest

/-- All results, or `none` when one of them is `none`. -/
def allSome : List (Option JsString) → Option (List JsString)
  | [] => some []
  | none :: _ => none
  | some s :: rest => (allSome rest).map fun r => s :: r

mutual
/-- The conversion `ToString`; `none` is a `TypeError`. An array converts through
`Array.prototype.join`; a plain object gives `[object Object]` unless an own
property named `toString` hides `Object.prototype.toString`. -/
def toStr (host : Host) : JVal → Option JsString
  | .null => some (utf16 "null")
  | .bool b => some (if b then utf16 "true" else utf16 "false")
  | .num lit => some (host.numberToString lit)
  | .str s => some s
  | .arr xs => (allSome (elementStrings host xs)).map (joinStrings (utf16 ","))
  | .obj props =>
    if (props.lookup (utf16 "toString")).isSome then none
    else some (utf16 "[object Object]")
/-- The text `Array.prototype.join` uses for each element: `null` gives the empty
string, anything else its `ToString`. -/
def elementStrings (host : Host) : List JVal → List (Option JsString)
  | [] => []
  | .null :: rest => some [] :: elementStrings host rest
  | x :: rest => toStr host x :: elementStrings host rest
end

/-- The method `Array.prototype.join`; `none` is a `TypeError`. -/
def arrayJoin (host : Host) (sep : JsString) (xs : List JVal) : Option JsString :=
  (allSome (elementStrings host xs)).map (joinStrings sep)

/-- Four lower-case hexadecimal digits. -/
def hex4 (c : Nat) : JsString :=
  [c / 4096 % 16, c / 256 % 16, c / 16 % 16, c % 16].map fun d =>
    if d < 10 then 48 + d else 87 + d

/-- The text `QuoteJSONString` writes for one code unit that is not part of a
surrogate pair. -/
def quoteUnit (c : Nat) : JsString :=
  if c = 8 then utf16 "\\b"
  else if c = 9 then utf16 "\\t"
  else if c = 10 then utf16 "\\n"
  else if c = 12 then utf16 "\\f"
  else if c = 13 then utf16 "\\r"
  else if c = 34 then utf16 "\\\""
  else if c = 92 then utf16 "\\\\"
  else if c < 32 || (55296 ≤ c && c ≤ 57343) then utf16 "\\u" ++ hex4 c
  else [c]

/-- The characters of `QuoteJSONString` between the quotes: a surrogate pair is
copied, a lone surrogate is escaped. -/
def quoteBody : JsString → JsString
  | [] => []
  | [c] => quoteUnit c
  | c :: d :: rest =>
    if (55296 ≤ c && c ≤ 56319) && (56320 ≤ d && d ≤ 57343) then c :: d :: quoteBody rest
    else quoteUnit c ++ quoteBody (d :: rest)

/-- The operation `QuoteJSONString`. -/
def quoteJson (s : JsString) : JsString :=
  [34] ++ quoteBody s ++ [34]

/-- The array index a property key stands for: a canonical decimal below
`2^32 - 1`. -/
def arrayIndex (k : JsString) : Option Nat :=
  if k = [48] then some 0
  else
    match k with
    | [] => none
    | c :: _ =>
      if 49 ≤ c && c ≤ 57 && k.all isDigit then
        (fun n => if n < 4294967295 then some n else none)
          (k.foldl (fun a d => 10 * a + (d - 48)) 0)
      else none

/-- Own property order: array indices ascending, then the other keys in creation
order. Works on any payload, here the serialised members. -/
def orderKeys {α : Type} (members : List (JsString × α)) : List (JsString × α) :=
  ((members.filterMap fun m => (arrayIndex m.1).map fun i => (i, m)).insertionSort
      (fun a b => a.1 ≤ b.1)).map (fun p => p.2)
    ++ members.filter fun m => (arrayIndex m.1).isNone

/-- The text between the brackets of a non-empty array or object written with an
indentation: `stepback` is the indentation of the enclosing level. -/
def wrapItems (opening closing : Nat) (stepback : JsString) (items : List JsString) :
    JsString :=
  match items with
  | [] => [opening, closing]
  | _ =>
    [opening, 10] ++ (stepback ++ utf16 "  ")
      ++ joinStrings ([44, 10] ++ (stepback ++ utf16 "  ")) items
      ++ [10] ++ stepback ++ [closing]

mutual
/-- The operation `SerializeJSONProperty` of `JSON.stringify(value, null, 2)` at
the indentation `indent`. -/
def serialize (host : Host) (indent : JsString) : JVal → JsString
  | .null => utf16 "null"
  | .bool b => if b then utf16 "true" else utf16 "false"
  | .num lit => if host.numberIsFinite lit then host.numberToString lit else utf16 "null"
  | .str s => quoteJson s
  | .arr xs => wrapItems 91 93 indent (serializeElements host (indent ++ utf16 "  ") xs)
  | .obj props =>
    wrapItems 123 125 indent
      ((orderKeys (serializeMembers host (indent ++ utf16 "  ") props)).map fun m =>
        quoteJson m.1 ++ utf16 ": " ++ m.2)
/-- The serialised elements of an array. -/
def serializeElements (host : Host) (indent : JsString) : List JVal → List JsString
  | [] => []
  | x :: rest => serialize host indent x :: serializeElements host indent rest
/-- The serialised values of the members of an object, by key. -/
def serializeMembers (host : Host) (indent : JsString) :
    List (JsString × JVal) → List (JsString × JsString)
  | [] => []
  | (k, x) :: rest => (k, serialize host indent x) :: serializeMembers host indent rest
end

/-- The call `JSON.stringify(value, null, 2)` on a parsed value. -/
def jsonStringify (host : Host) (v : JVal) : JsString :=
  serialize host [] v

/-! ## `utils.js` -/

/-- The constant `MAX_INPUT_LENGTH`. -/
def MAX_INPUT_LENGTH : Nat := 10000

/-- The record `validateInput` returns. -/
structure ValidationResult where
  valid : Bool
  text : Option JsString
  error : Option JsString

/-- The function `validateInput`. -/
def validateInput (host : Host) (text : JsValue) : ValidationResult :=
  match text with
  | some (.str t) =>
    if t.isEmpty then
      { valid := false, text := none, error := some (utf16 "Please enter some text to transform.") }
    else if (trim t).length = 0 then
      { valid := false, text := none, error := some (utf16 "Please enter some text to transform.") }
    else if (trim t).length > MAX_INPUT_LENGTH then
      { valid := false, text := none,
        error := some (utf16 "Input text exceeds maximum length (" ++ host.maxLengthText
          ++ utf16 " characters).") }
    else { valid := true, text := some (trim t), error := none }
  | _ =>
    { valid := false, text := none, error := some (utf16 "Please enter some text to transform.") }

/-- The test `startsWith('{') && endsWith('}') || startsWith('[') && endsWith(']')`
of `sanitizeOutput`. -/
def looksLikeJson (s : JsString) : Bool :=
  (startsWith s [123] && endsWith s [125]) || (startsWith s [91] && endsWith s [93])

/-- The last two branches of the chain of `sanitizeOutput`: an array is joined
with line feeds (`none` when `join` throws), anything else is pretty-printed. -/
def joinOrStringify (host : Host) (parsed : JVal) : Option JVal :=
  match parsed with
  | .arr xs => (arrayJoin host [10] xs).map JVal.str
  | _ => some (.str (jsonStringify host parsed))

/-- The `if`/`else if` chain of `sanitizeOutput` on the parsed value: the new
value of `sanitized`, or `none` when the chain throws (caught by the `catch`
around it; reading a property of `null` throws). -/
def unwrapParsed (host : Host) (parsed : JVal) : Option JVal :=
  match parsed with
  | .null => none
  | _ =>
    if truthy host (getProperty parsed (utf16 "text")) then getProperty parsed (utf16 "text")
    else if truthy host (getProperty parsed (utf16 "content")) then
      getProperty parsed (utf16 "content")
    else if truthy host (getProperty parsed (utf16 "output")) then
      getProperty parsed (utf16 "output")
    else if truthy host (getProperty parsed (utf16 "result")) then
      getProperty parsed (utf16 "result")
    else joinOrStringify host parsed

/-- The `try` block of `sanitizeOutput`: the value of `sanitized` after it. -/
def unwrapJson (host : Host) (sanitized : JsString) : JVal :=
  if looksLikeJson sanitized then
    match jsonParse sanitized with
    | none => .str sanitized
    | some parsed =>
      match unwrapParsed host parsed with
      | none => .str sanitized
      | some v => v
  else .str sanitized

/-- The two `replace` calls and the final `trim` of `sanitizeOutput`. -/
def stripFences (s : JsString) : JsString :=
  trim (removeAll fence (removeAll fenceJson s))

/-- The function `sanitizeOutput`. A `sanitized` that is not a string has no
`replace` method: the call throws a `TypeError`. -/
def sanitizeOutput (host : Host) (text : JsValue) : Except JsErr JsString :=
  match text with
  | some (.str t) =>
    if t.isEmpty then .ok []
    else
      match unwrapJson host (trim t) with
      | .str s => .ok (stripFences s)
      | _ => .error (typeError host .notAFunction)
  | _ => .ok []

/-! ## Statements shared by the theorems -/

/-- A statement that holds whatever the engine is. -/
def ForEveryHost (p : Host → Prop) : Prop := ∀ host : Host, p host

/-- A string as an argument value. -/
def jsStr (s : JsString) : JsValue := some (.str s)

/-- The fields the sanitizer unwraps, in the order of the specification. -/
def unwrapFields : List JsString :=
  [utf16 "text", utf16 "content", utf16 "output", utf16 "result"]

/-- The unwrapping rule in the words of the specification: the value of the first
of the fields `text`, `content`, `output`, `result` that is present. -/
def firstPresent (v : JVal) : JsValue :=
  unwrapFields.findSome? (getProperty v)

/-- The unwrapping rule read with JavaScript truth values: the value of the first
of the four fields whose value is truthy. -/
def firstTruthy (host : Host) (v : JVal) : JsValue :=
  unwrapFields.findSome? fun f =>
    if truthy host (getProperty v f) then getProperty v f else none

/-- The function `formatError` on a caught error object. -/
def formatError (error : JsErr) : JsString :=
  if !error.message.isEmpty then
    if includes error.message (utf16 "fetch") then
      utf16 "Unable to connect to AI service. Please check your connection."
    else if includes error.message (utf16 "401")
        || includes error.message (utf16 "authentication") then
      utf16 "API key invalid. Please configure OpenRouter API key."
    else if includes error.message (utf16 "429")
        || includes error.message (utf16 "rate limit") then
      utf16 "Too many requests. Please wait a moment and try again."
    else if includes error.message (utf16 "timeout") then
      utf16 "Request timed out. Please try again with shorter text."
    else error.message
  else utf16 "Unexpected response from AI service. Please try again."

/-- Where `getApiKey` looks: the global `OPENROUTER_API_KEY` when it is defined,
and the environment variable of the same name. -/
structure Config where
  globalKey : Option JsString
  envKey : Option JsString

/-- The function `getApiKey`; `none` is `null`. -/
def getApiKey (cfg : Config) : Option JsString :=
  match cfg.globalKey with
  | some k => some k
  | none =>
    match cfg.envKey with
    | some k => if !k.isEmpty then some k else none
    | none => none

/-! ## `block_registry.js` -/

/-- A block of the registry. -/
structure Block where
  id : JsString
  name : JsString
  description : JsString
  prompt : JsString
  sampleInput : JsString

/-- The table `blocks` as the module creates it. -/
def blocks : List Block := [
  { id := utf16 "summarizeText",
    name := utf16 "summarizeText",
    description := utf16 "Condense text to key points",
    prompt := utf16
      "You are a summarization assistant. Provide a concise summary of the following text, highlighting the main points in clear, readable format. Return only the summary text without any JSON formatting.",
    sampleInput := utf16
      "Artificial intelligence has transformed the way we interact with technology in our daily lives. From voice assistants like Siri and Alexa to recommendation systems on Netflix and Spotify, AI is everywhere. Machine learning algorithms analyze vast amounts of data to identify patterns and make predictions, enabling personalized experiences for users. Natural language processing allows computers to understand and generate human language, making chatbots and virtual assistants more conversational and helpful. Computer vision enables machines to interpret and understand visual information from the world, powering applications like facial recognition and autonomous vehicles. Deep learning, a subset of machine learning inspired by the structure of the human brain, has achieved remarkable breakthroughs in image recognition, speech recognition, and game playing." },
  { id := utf16 "extractKeyPoints",
    name := utf16 "extractKeyPoints",
    description := utf16 "Identify and list main ideas",
    prompt := utf16
      "You are a key point extraction assistant. Identify and list the main ideas from the following text as clear bullet points. Return only the bullet points without any JSON formatting.",
    sampleInput := utf16
      "In our quarterly meeting, we discussed several important topics. First, the sales team reported a 15% increase in revenue compared to last quarter, primarily driven by new customer acquisitions in the enterprise segment. Second, the product team announced the upcoming launch of three new features based on customer feedback, scheduled for release in the next sprint. Third, we reviewed the customer satisfaction scores which showed improvement in support response times but identified areas for improvement in product documentation. Fourth, the marketing team presented their campaign results showing strong engagement on social media platforms." },
  { id := utf16 "improveWritingQuality",
    name := utf16 "improveWritingQuality",
    description := utf16 "Enhance clarity, grammar, and style",
    prompt := utf16
      "You are a writing improvement assistant. Enhance the following text by improving clarity, fixing grammar errors, and refining style while maintaining the original meaning. Return only the improved text without any JSON formatting.",
    sampleInput := utf16
      "The company are planning to launch there new product next month but their still working on final testing. Its been a long development process with many challenge but the team is very excited about the results. We believes this product will be game changer in the market and help us to compete better with our competitor." },
  { id := utf16 "rewriteAsEmail",
    name := utf16 "rewriteAsEmail",
    description := utf16 "Convert text to professional email format",
    prompt := utf16
      "You are an email writing assistant. Convert the following text into a professional email format with appropriate greeting, body, and closing. Return only the email text without any JSON formatting.",
    sampleInput := utf16
      "Hey, just wanted to let you know the project deadline got moved up to next Friday. We need to finish the design mockups and get feedback from the client before then. Can you prioritize this? Also the budget discussion needs to happen this week." },
  { id := utf16 "translateText",
    name := utf16 "translateText",
    description := utf16 "Convert text between languages",
    prompt := utf16
      "You are a translation assistant. Translate the following text to Spanish. Maintain the tone and meaning of the original text. Return only the translated text without any JSON formatting.",
    sampleInput := utf16
      "Welcome to our platform! We are excited to have you here. Our mission is to make technology accessible to everyone. Whether you are a beginner or an expert, we have tools and resources to help you succeed." },
  { id := utf16 "convertToTable",
    name := utf16 "convertToTable",
    description := utf16 "Structure text data as tabular format",
    prompt := utf16
      "You are a data structuring assistant. Convert the following text into a well-formatted markdown table. Identify the appropriate columns and organize the information clearly. Return only the markdown table without any JSON formatting.",
    sampleInput := utf16
      "Product: Laptop, Price: $999, Stock: 15 units, Category: Electronics. Product: Desk Chair, Price: $299, Stock: 8 units, Category: Furniture. Product: Monitor, Price: $449, Stock: 22 units, Category: Electronics." }]

/-- The function `getBlock` on the current table; `none` is `undefined`. -/
def getBlock (registry : List Block) (blockId : JsString) : Option Block :=
  registry.find? fun block => block.id = blockId

/-- The function `getAllBlocks`: a copy of the table. -/
def getAllBlocks (registry : List Block) : List Block := registry

/-- The argument of `registerBlock`: an object whose properties are texts or
missing (`none`). -/
structure BlockObject where
  id : Option JsString
  name : Option JsString
  description : Option JsString
  prompt : Option JsString
  sampleInput : Option JsString

/-- The test `!value` on a property that is a text or missing. -/
def falsy : Option JsString → Bool
  | none => true
  | some s => s.isEmpty

/-- The table entry an accepted object is. Its `sampleInput`, which no modelled
code reads, is the empty text when the property is missing. -/
def BlockObject.entry (block : BlockObject) : Block :=
  { id := block.id.getD [], name := block.name.getD [],
    description := block.description.getD [], prompt := block.prompt.getD [],
    sampleInput := block.sampleInput.getD [] }

/-- The lines of `registerBlock` after the check: `findIndex`, then the
assignment at the index found or the `push` (`none` is the index `-1`). -/
def putEntry (registry : List Block) (entry : Block) : List Block :=
  match registry.findIdx? fun b => b.id = entry.id with
  | some existingIndex => registry.set existingIndex entry
  | none => registry ++ [entry]

/-- A call of `registerBlock`: whether it throws, and the table after it. -/
structure Registration where
  result : Except JsErr Unit
  registry : List Block

/-- The function `registerBlock` on the current table. -/
def registerBlock (registry : List Block) (block : BlockObject) : Registration :=
  if falsy block.id || falsy block.name || falsy block.description || falsy block.prompt then
    { result := .error
        (newError (utf16 "Block must have id, name, description, and prompt properties")),
      registry := registry }
  else { result := .ok (), registry := putEntry registry block.entry }

/-! ## `block_executor.js` -/

/-- The constant `MAX_RETRIES`. -/
def MAX_RETRIES : Nat := 3

/-- The constant `INITIAL_RETRY_DELAY`, in milliseconds. -/
def INITIAL_RETRY_DELAY : Nat := 2000

/-- What varies in the request `executeBlock` sends: the `Authorization` header
and the contents of the system and the user message. -/
structure Request where
  authorization : JsString
  system : JsString
  user : JsString

/-- What `response.json()` settles to. -/
inductive Body where
  | unreadable (err : JsErr)
  | json (data : JVal)

/-- What a `fetch` call settles to: a rejection (a network failure, or an
`AbortError` when the timer aborts the request) or a response. -/
inductive FetchOutcome where
  | rejected (err : JsErr)
  | response (status : Nat) (body : Body)

/-- The completion service: the outcome of a request given the requests made
so far, the latest first, itself included. -/
abbrev Network := List Request → FetchOutcome

/-- What `executeBlock` does to the outside: requests and waits. -/
inductive Event where
  | fetch (req : Request)
  | delay (ms : Nat)

/-- One call of `executeBlock`: what it returns or throws, and its events. -/
structure BlockRun where
  result : Except JsErr JsString
  events : List Event

/-- The requests among the events, the latest first. -/
def requestsOf : List Event → List Request
  | [] => []
  | .fetch req :: rest => requestsOf rest ++ [req]
  | .delay _ :: rest => requestsOf rest

/-- The flag `response.ok`. -/
def responseOk (status : Nat) : Bool := 200 ≤ status && status ≤ 299

/-- The expression `x[0]` on a truthy value. -/
def firstElement : JVal → JsValue
  | .str s => s.head?.map fun c => .str [c]
  | .arr xs => xs.head?
  | .obj props => props.lookup (utf16 "0")
  | _ => none

/-- The lines of `executeBlock` from `response.json()` to `outputText`. -/
def extractContent (host : Host) (data : JVal) : Except JsErr JsValue :=
  match data with
  | .null => .error (typeError host .propertyOfNullish)
  | _ =>
    match getProperty data (utf16 "choices") with
    | none => .error (newError (utf16 "Unexpected response from AI service. Please try again."))
    | some choices =>
      if !truthy host (some choices) || !truthy host (firstElement choices) then
        .error (newError (utf16 "Unexpected response from AI service. Please try again."))
      else
        match firstElement choices with
        | none => .error (newError (utf16 "Unexpected response from AI service. Please try again."))
        | some choice =>
          match getProperty choice (utf16 "message") with
          | none =>
            .error (newError (utf16 "Unexpected response from AI service. Please try again."))
          | some message =>
            if !truthy host (some message) then
              .error (newError (utf16 "Unexpected response from AI service. Please try again."))
            else .ok (getProperty message (utf16 "content"))

/-- The value of `errorData.error?.message`; reading `error` of `null` throws. -/
def errorDataMessage (host : Host) (errorData : JVal) : Except JsErr JsValue :=
  match errorData with
  | .null => .error (typeError host .propertyOfNullish)
  | _ =>
    match getProperty errorData (utf16 "error") with
    | none => .ok none
    | some .null => .ok none
    | some e => .ok (getProperty e (utf16 "message"))

/-- The expression `new Error(message)` for a message that is any value: the
message is converted with `ToString`, which can throw. -/
def newErrorOf (host : Host) (message : JVal) : JsErr :=
  match toStr host message with
  | some text => newError text
  | none => typeError host .notPrimitive

/-- The error thrown for a response that is not OK, neither 401 nor 429:
`errorData` is the parsed body, or an empty object when the body is unreadable. -/
def apiError (host : Host) (status : Nat) (body : Body) : JsErr :=
  match errorDataMessage host (match body with
      | .unreadable _ => .obj []
      | .json data => data) with
  | .error err => err
  | .ok none => newError (utf16 "API request failed with status " ++ decimal status)
  | .ok (some message) =>
    if truthy host (some message) then newErrorOf host message
    else newError (utf16 "API request failed with status " ++ decimal status)

/-- How the `try` block of one attempt ends. -/
inductive Attempt where
  | returned (output : JsString)
  | retry (delay : Nat)
  | thrown (err : JsErr)

/-- The `try` block of `executeBlock` once `fetch` has settled. -/
def tryAttempt (host : Host) (attempt : Nat) : FetchOutcome → Attempt
  | .rejected err => .thrown err
  | .response status body =>
    if !responseOk status then
      if status = 401 then
        .thrown (newError (utf16 "API key invalid. Please configure OpenRouter API key."))
      else if status = 429 then
        if attempt < MAX_RETRIES then .retry (INITIAL_RETRY_DELAY * 2 ^ attempt)
        else .thrown (newError (utf16 "Too many requests. Please wait a moment and try again."))
      else .thrown (apiError host status body)
    else
      match body with
      | .unreadable err => .thrown err
      | .json data =>
        match extractContent host data with
        | .error err => .thrown err
        | .ok outputText =>
          match sanitizeOutput host outputText with
          | .error err => .thrown err
          | .ok sanitized => .returned sanitized

/-- A run that ends at once with an error. -/
def BlockRun.fail (events : List Event) (err : JsErr) : BlockRun :=
  { result := .error err, events := events }

/-- A run preceded by some events. -/
def BlockRun.after (events : List Event) (run : BlockRun) : BlockRun :=
  { result := run.result, events := events ++ run.events }

/-- The retry loop of `executeBlock`: `remaining` counts the iterations left,
`attempt` is the loop variable, `history` the requests made before this one,
`lastError` the variable of that name. -/
def attemptLoop (host : Host) (net : Network) (req : Request) :
    Nat → Nat → List Request → Option JsErr → BlockRun
  | 0, _, _, lastError =>
    match lastError with
    | none => .fail [] (typeError host .propertyOfNullish)
    | some err => .fail [] (newError (formatError err))
  | remaining + 1, attempt, history, lastError =>
    match tryAttempt host attempt (net (req :: history)) with
    | .returned output => { result := .ok output, events := [.fetch req] }
    | .retry delay =>
      (attemptLoop host net req remaining (attempt + 1) (req :: history) lastError).after
        [.fetch req, .delay delay]
    | .thrown err =>
      if err.name = utf16 "AbortError" then
        .fail [.fetch req]
          (newError (utf16 "Request timed out. Please try again with shorter text."))
      else if includes err.message (utf16 "fetch") || includes err.message (utf16 "network") then
        .fail [.fetch req]
          (newError (utf16 "Unable to connect to AI service. Please check your connection."))
      else if !includes err.message (utf16 "Too many requests") then
        .fail [.fetch req] (newError (formatError err))
      else if attempt ≥ MAX_RETRIES then
        .fail [.fetch req] (newError (formatError err))
      else
        (attemptLoop host net req remaining (attempt + 1) (req :: history) (some err)).after
          [.fetch req]

/-- The function `executeBlock`, with the requests made before the call. -/
def executeBlock (host : Host) (cfg : Config) (registry : List Block) (net : Network)
    (history : List Request) (blockId : JsString) (inputText : JsValue) : BlockRun :=
  if !(validateInput host inputText).valid then
    .fail [] (newError ((validateInput host inputText).error.getD []))
  else
    match getBlock registry blockId with
    | none => .fail [] (newError (utf16 "Block not found: " ++ blockId))
    | some block =>
      match getApiKey cfg with
      | none => .fail [] (newError (utf16 "API key invalid. Please configure OpenRouter API key."))
      | some apiKey =>
        if apiKey.isEmpty then
          .fail [] (newError (utf16 "API key invalid. Please configure OpenRouter API key."))
        else
          attemptLoop host net
            { authorization := utf16 "Bearer " ++ apiKey, system := block.prompt,
              user := ((validateInput host inputText).text.getD []) }
            (MAX_RETRIES + 1) 0 history none

/-! ## `workflow_engine.js` -/

/-- The object `executeWorkflow` returns. -/
structure WorkflowResult where
  steps : List StepResult
  finalOutput : JsString

/-- One invocation of `executeBlock` by the workflow: its arguments and its run. -/
structure Call where
  blockId : JsString
  input : JsString
  run : BlockRun

/-- A run of `executeWorkflow`: what it returns or throws, the list
`workflowResult.steps` as it stands when the function exits, and the calls of
`executeBlock` it made, in order. -/
structure WorkflowRun where
  outcome : Except JsErr WorkflowResult
  steps : List StepResult
  calls : List Call

/-- The step error of the `catch` block:
`error.message || 'An error occurred during execution'`. -/
def stepError (err : JsErr) : JsString :=
  if err.message.isEmpty then utf16 "An error occurred during execution" else err.message

/-- The message of the error thrown when a step fails; `index` counts from 0. -/
def stepFailureMessage (index : Nat) (blockName : JsString) (error : JsString) : JsString :=
  utf16 "Workflow failed at step " ++ decimal (index + 1) ++ utf16 " (" ++ blockName
    ++ utf16 "): " ++ error

/-- The step record of a block that ran. -/
def successStep (block : Block) (blockId input output : JsString) : StepResult :=
  { blockId := blockId, blockName := block.name, input := input, output := output,
    success := true, error := none }

/-- The step record of a block that failed. -/
def failedStep (block : Block) (blockId input : JsString) (err : JsErr) : StepResult :=
  { blockId := blockId, blockName := block.name, input := input, output := [],
    success := false, error := some (stepError err) }

/-- A run preceded by one call of `executeBlock`. -/
def WorkflowRun.afterCall (call : Call) (run : WorkflowRun) : WorkflowRun :=
  { run with calls := call :: run.calls }

/-- The second loop of `executeWorkflow`, from index `i` on: `ids` are the block
ids still to run, `currentInput` and `steps` the variables of that name,
`history` the requests made so far. `executeBlock` is the function the module
loaded under that name. -/
def runSteps (host : Host) (registry : List Block)
    (executeBlock : List Request → JsString → JsValue → BlockRun) :
    List JsString → Nat → JsString → List StepResult → List Request → WorkflowRun
  | [], _, currentInput, steps, _ =>
    { outcome := .ok { steps := steps, finalOutput := currentInput }, steps := steps,
      calls := [] }
  | blockId :: rest, i, currentInput, steps, history =>
    match getBlock registry blockId with
    | none =>
      { outcome := .error (typeError host .propertyOfNullish), steps := steps, calls := [] }
    | some block =>
      match (executeBlock history blockId (jsStr currentInput)).result with
      | .ok output =>
        (runSteps host registry executeBlock rest (i + 1) output
          (steps ++ [successStep block blockId currentInput output])
          (requestsOf (executeBlock history blockId (jsStr currentInput)).events
            ++ history)).afterCall
          { blockId := blockId, input := currentInput,
            run := executeBlock history blockId (jsStr currentInput) }
      | .error err =>
        { outcome := .error (newError (stepFailureMessage i block.name (stepError err))),
          steps := steps ++ [failedStep block blockId currentInput err],
          calls := [{ blockId := blockId, input := currentInput,
                      run := executeBlock history blockId (jsStr currentInput) }] }

/-- The function `executeWorkflow` around a given `executeBlock`: `blockIds` is
`none` when the argument is missing or not an array. -/
def executeWorkflowWith (host : Host) (registry : List Block)
    (executeBlock : List Request → JsString → JsValue → BlockRun)
    (blockIds : Option (List JsString)) (initialInput : JsValue) : WorkflowRun :=
  if !(validateInput host initialInput).valid then
    { outcome := .error (newError ((validateInput host initialInput).error.getD [])),
      steps := [], calls := [] }
  else
    match blockIds with
    | none =>
      { outcome := .error (newError (utf16 "Please select at least one block for the workflow.")),
        steps := [], calls := [] }
    | some [] =>
      { outcome := .error (newError (utf16 "Please select at least one block for the workflow.")),
        steps := [], calls := [] }
    | some (id :: ids) =>
      match (id :: ids).find? fun blockId => (getBlock registry blockId).isNone with
      | some blockId =>
        { outcome := .error (newError (utf16 "Block not found: " ++ blockId)),
          steps := [], calls := [] }
      | none =>
        runSteps host registry executeBlock (id :: ids) 0
          ((validateInput host initialInput).text.getD []) [] []

/-- The function `executeWorkflow` of the repository: the `executeBlock` it
loads is the one of `block_executor.js`. -/
def executeWorkflow (host : Host) (cfg : Config) (registry : List Block) (net : Network)
    (blockIds : Option (List JsString)) (initialInput : JsValue) : WorkflowRun :=
  executeWorkflowWith host registry (executeBlock host cfg registry net) blockIds initialInput

/-! ## Reading a run -/

/-- Whether a call of `executeBlock` returned. -/
def BlockRun.succeeded (run : BlockRun) : Bool :=
  match run.result with
  | .ok _ => true
  | .error _ => false

/-- The text a call of `executeBlock` returned, empty when it threw. -/
def BlockRun.output (run : BlockRun) : JsString :=
  match run.result with
  | .ok output => output
  | .error _ => []

/-- The step record `executeWorkflow` makes of a call of `executeBlock`. -/
def stepOf (registry : List Block) (c : Call) : StepResult :=
  { blockId := c.blockId,
    blockName := ((getBlock registry c.blockId).map Block.name).getD [],
    input := c.input,
    output := c.run.output,
    success := c.run.succeeded,
    error :=
      match c.run.result with
      | .ok _ => none
      | .error err => some (stepError err) }

/-! ## Sample configuration and service answers -/

/-- A configuration with an API key. -/
def sampleConfig : Config := { globalKey := some (utf16 "sk-key"), envKey := none }

/-- A well-formed answer of the completion service with the given text. -/
def completion (text : JsString) : FetchOutcome :=
  .response 200 (.json (.obj [(utf16 "choices",
    .arr [.obj [(utf16 "message", .obj [(utf16 "content", .str text)])]])]))

/-- A service that answers every request with the text `done`. -/
def steadyService : Network := fun _ => completion (utf16 "done")

/-- A service that answers its first request with the text `first` and every
later one with HTTP 500 and the error message `boom`. -/
def secondFails : Network := fun history =>
  if history.length ≤ 1 then completion (utf16 "first")
  else .response 500 (.json (.obj [(utf16 "error",
    .obj [(utf16 "message", .str (utf16 "boom"))])]))

/-- A service that answers its first three requests with HTTP 429 and every
later one with the text `done`. -/
def rateLimitedThrice : Network := fun history =>
  if history.length ≤ 3 then .response 429 (.json .null) else completion (utf16 "done")

/-- A service that answers every request with HTTP 500 and an error body whose
message is `Too many requests`. -/
def overloaded : Network := fun _ =>
  .response 500 (.json (.obj [(utf16 "error",
    .obj [(utf16 "message", .str (utf16 "Too many requests"))])]))

/-- A service that answers every request with HTTP 401. -/
def unauthorized : Network := fun _ => .response 401 (.json .null)

/-- A service that answers every request with a text of one space. -/
def blankService : Network := fun _ => completion (utf16 " ")

/-! ## Reading the events of a call -/

/-- The waits among the events, in order. -/
def delaysOf : List Event → List Nat
  | [] => []
  | .fetch _ :: rest => delaysOf rest
  | .delay ms :: rest => ms :: delaysOf rest

/-- The events of `count` rate-limited attempts followed by one more attempt,
the first of them being the attempt number `attempt`: each rate-limited request
is followed by the wait `INITIAL_RETRY_DELAY * 2 ^ attempt`. -/
def backoffEvents (req : Request) : Nat → Nat → List Event
  | 0, _ => [.fetch req]
  | count + 1, attempt =>
    .fetch req :: .delay (INITIAL_RETRY_DELAY * 2 ^ attempt) ::
      backoffEvents req count (attempt + 1)

/-! ## Fenced code blocks -/

/-- A text wrapped in a fenced code block: the opening marker with its language
tag, a line feed, the content, a line feed, the closing marker. -/
def fenced (tag content : JsString) : JsString :=
  fence ++ tag ++ 10 :: (content ++ 10 :: fence)

/-! ## Registry states and block objects -/

/-- The tables a run can reach: the initial table, and the table after a call of
`registerBlock` on a reachable table. -/
inductive RegistryState : List Block → Prop
  | initial : RegistryState blocks
  | registered (registry : List Block) (block : BlockObject) :
    RegistryState registry → RegistryState (registerBlock registry block).registry

/-- The four required properties of the object are present. -/
def BlockObject.present (block : BlockObject) : Prop :=
  block.id.isSome ∧ block.name.isSome ∧ block.description.isSome ∧ block.prompt.isSome

/-- The four required properties of the object are present and not empty. -/
def BlockObject.complete (block : BlockObject) : Prop :=
  ∀ field ∈ [block.id, block.name, block.description, block.prompt],
    ∃ s : JsString, field = some s ∧ s ≠ []

/-- One of the four required properties of the object is missing or empty. -/
def BlockObject.incomplete (block : BlockObject) : Prop :=
  ∃ field ∈ [block.id, block.name, block.description, block.prompt],
    field = none ∨ field = some []

/-- A complete object with a new id. -/
def shoutBlock : BlockObject :=
  { id := some (utf16 "shout"), name := some (utf16 "shout"),
    description := some (utf16 "Upper case"),
    prompt := some (utf16 "Write the text in upper case."), sampleInput := none }

/-- A complete object with the id of an entry of the initial table. -/
def frenchBlock : BlockObject :=
  { id := some (utf16 "translateText"), name := some (utf16 "toFrench"),
    description := some (utf16 "French"), prompt := some (utf16 "Translate to French."),
    sampleInput := none }

/-- A second complete object with the same id. -/
def germanBlock : BlockObject :=
  { id := some (utf16 "translateText"), name := some (utf16 "toGerman"),
    description := some (utf16 "German"), prompt := some (utf16 "Translate to German."),
    sampleInput := none }

/-- The request `executeBlock` sends for a block and a validated text. -/
def blockRequest (apiKey : JsString) (block : Block) (text : JsString) : Request :=
  { authorization := utf16 "Bearer " ++ apiKey, system := block.prompt, user := text }

/-- A request, for the examples of the retry loop. -/
def sampleRequest : Request :=
  { authorization := utf16 "Bearer sk-key", system := utf16 "Summarize the text.",
    user := utf16 "some text" }

/-! ## Facts about strings -/

theorem removeAllFuel_nil (pat : JsString) (n : Nat) : removeAllFuel pat n [] = [] := by
  cases n <;> rfl

theorem length_drop_dropWhile_lt (pat : JsString) (hp : pat ≠ []) (c : Nat) (cs : JsString) :
    (((c :: cs).drop pat.length).dropWhile isWhiteSpace).length < (c :: cs).length := by
  have h1 : (((c :: cs).drop pat.length).dropWhile isWhiteSpace).length
      ≤ ((c :: cs).drop pat.length).length :=
    (List.dropWhile_suffix isWhiteSpace).length_le
  have h2 : 0 < pat.length := List.length_pos.mpr hp
  have h3 : ((c :: cs).drop pat.length).length = (c :: cs).length - pat.length :=
    List.length_drop _ _
  have h4 : 0 < (c :: cs).length := by simp
  omega

/-- The fuel of `removeAll` is enough: more fuel gives the same result. -/
theorem removeAllFuel_fuel (pat : JsString) (hp : pat ≠ []) :
    ∀ (n m : Nat) (s : JsString), s.length ≤ n → s.length ≤ m →
      removeAllFuel pat n s = removeAllFuel pat m s := by
  intro n
  induction n with
  | zero =>
    intro m s hn _
    have : s = [] := List.length_eq_zero.mp (Nat.le_zero.mp hn)
    subst this
    rw [removeAllFuel_nil, removeAllFuel_nil]
  | succ n ih =>
    intro m s hn hm
    cases s with
    | nil => rw [removeAllFuel_nil, removeAllFuel_nil]
    | cons c cs =>
      cases m with
      | zero => simp at hm
      | succ m =>
        have hlt := length_drop_dropWhile_lt pat hp c cs
        simp only [List.length_cons] at hn hm hlt
        simp only [removeAllFuel]
        split
        · exact ih m _ (by omega) (by omega)
        · rw [ih m cs (by omega) (by omega)]

/-- The defining equation of the global replace: at a match the pattern and the
white space after it go, and the scan goes on behind them. -/
theorem removeAll_cons (pat : JsString) (hp : pat ≠ []) (c : Nat) (cs : JsString) :
    removeAll pat (c :: cs) =
      if pat.isPrefixOf (c :: cs) then
        removeAll pat (((c :: cs).drop pat.length).dropWhile isWhiteSpace)
      else c :: removeAll pat cs := by
  have hlt := length_drop_dropWhile_lt pat hp c cs
  simp only [List.length_cons] at hlt
  unfold removeAll
  simp only [List.length_cons, removeAllFuel]
  split
  · exact removeAllFuel_fuel pat hp _ _ _ (by omega) (le_refl _)
  · rfl

theorem removeAll_nil (pat : JsString) : removeAll pat [] = [] := rfl

theorem fence_isPrefixOf_iff (s : JsString) :
    fence.isPrefixOf s = true ↔ ∃ r, s = 96 :: 96 :: 96 :: r := by
  rw [List.isPrefixOf_iff_prefix]
  constructor
  · rintro ⟨r, rfl⟩
    exact ⟨r, rfl⟩
  · rintro ⟨r, rfl⟩
    exact ⟨r, rfl⟩

/-- A text without three backticks in a row is left alone by a replace whose
pattern starts with them. -/
theorem removeAll_of_no_fence (pat : JsString) (hpre : fence <+: pat) :
    ∀ s : JsString, ¬ fence <:+: s → removeAll pat s = s := by
  have hp : pat ≠ [] := by
    rintro rfl
    have := hpre.length_le
    simp [fence] at this
  intro s
  induction s with
  | nil => intro _; rfl
  | cons c cs ih =>
    intro h
    rw [removeAll_cons pat hp]
    have hno : pat.isPrefixOf (c :: cs) = false := by
      cases hpat : pat.isPrefixOf (c :: cs) with
      | false => rfl
      | true =>
        exact absurd ((hpre.trans (List.isPrefixOf_iff_prefix.mp hpat)).isInfix) h
    rw [hno]
    have hcs : ¬ fence <:+: cs := fun hc => h (hc.trans (List.suffix_cons c cs).isInfix)
    simp [ih hcs]

/-- If the text does not start with two backticks, neither does the result of
removing the fences. -/
theorem removeAll_fence_no_pair (s : JsString) (h : ¬ [96, 96] <+: s) :
    ¬ [96, 96] <+: removeAll fence s := by
  have hf : fence ≠ [] := by simp [fence]
  match s, h with
  | [], _ => simp [removeAll_nil]
  | [c], _ =>
    rw [removeAll_cons fence hf]
    have : fence.isPrefixOf [c] = false := by
      cases hh : fence.isPrefixOf [c] with
      | false => rfl
      | true => obtain ⟨r, hr⟩ := (fence_isPrefixOf_iff _).mp hh; simp at hr
    rw [this]
    simp [removeAll_nil]
  | c :: d :: r, h =>
    have hcd : ¬ (c = 96 ∧ d = 96) := by
      rintro ⟨rfl, rfl⟩
      exact h ⟨r, rfl⟩
    rw [removeAll_cons fence hf]
    have h1 : fence.isPrefixOf (c :: d :: r) = false := by
      cases hh : fence.isPrefixOf (c :: d :: r) with
      | false => rfl
      | true =>
        obtain ⟨r', hr⟩ := (fence_isPrefixOf_iff _).mp hh
        simp at hr
        exact absurd ⟨hr.1, hr.2.1⟩ hcd
    rw [h1]
    simp only [Bool.false_eq_true, if_false]
    by_cases hc : c = 96
    · have hd : d ≠ 96 := fun hd => hcd ⟨hc, hd⟩
      rw [removeAll_cons fence hf]
      have h2 : fence.isPrefixOf (d :: r) = false := by
        cases hh : fence.isPrefixOf (d :: r) with
        | false => rfl
        | true =>
          obtain ⟨r', hr⟩ := (fence_isPrefixOf_iff _).mp hh
          simp at hr
          exact absurd hr.1 hd
      rw [h2]
      simp only [Bool.false_eq_true, if_false]
      rintro ⟨t, ht⟩
      simp at ht
      exact hd ht.2.1.symm
    · rintro ⟨t, ht⟩
      simp at ht
      exact hc ht.1.symm

/-- After the replace of the bare fence no three backticks in a row are left. -/
theorem removeAll_fence_no_fence (s : JsString) : ¬ fence <:+: removeAll fence s := by
  have hf : fence ≠ [] := by simp [fence]
  generalize hn : s.length = n
  induction n using Nat.strong_induction_on generalizing s with
  | _ n ih =>
    cases s with
    | nil => simp [removeAll_nil, fence]
    | cons c cs =>
      rw [removeAll_cons fence hf]
      split
      · have hlt := length_drop_dropWhile_lt fence hf c cs
        exact ih _ (hn ▸ hlt) _ rfl
      · rename_i hno
        have hcs : ¬ fence <:+: removeAll fence cs :=
          ih cs.length (by rw [← hn]; simp) cs rfl
        intro hin
        rcases List.infix_cons_iff.mp hin with hpre | hin'
        · obtain ⟨t, ht⟩ := hpre
          simp [fence] at ht
          obtain ⟨hc, ht⟩ := ht
          subst hc
          have hpair : ¬ [96, 96] <+: cs := by
            rintro ⟨r, rfl⟩
            exact hno ((fence_isPrefixOf_iff _).mpr ⟨r, rfl⟩)
          exact removeAll_fence_no_pair cs hpair ⟨t, by simpa using ht⟩
        · exact hcs hin'

theorem trim_within (s : JsString) : trim s <:+: s :=
  (List.rdropWhile_prefix isWhiteSpace (s.dropWhile isWhiteSpace)).isInfix.trans
    (List.dropWhile_suffix isWhiteSpace).isInfix

theorem trim_nil : trim [] = [] := rfl

theorem dropWhile_of_initial (p : Nat → Bool) (a r : List Nat) (hpre : r <+: a)
    (ha : a.dropWhile p = a) : r.dropWhile p = r := by
  cases r with
  | nil => rfl
  | cons x r' =>
    obtain ⟨t, rfl⟩ := hpre
    have hx : p x = false := by
      cases hpx : p x with
      | false => rfl
      | true =>
        have hlen := congrArg List.length ha
        have hsuf : ((r' ++ t).dropWhile p).length ≤ (r' ++ t).length :=
          (List.dropWhile_suffix p).length_le
        simp [List.dropWhile, hpx] at hlen
        simp at hsuf
        omega
    simp [List.dropWhile, hx]

/-- The method `trim` is idempotent. -/
theorem trim_trim (s : JsString) : trim (trim s) = trim s := by
  unfold trim
  rw [dropWhile_of_initial isWhiteSpace _ _
    (List.rdropWhile_prefix isWhiteSpace (s.dropWhile isWhiteSpace))
    (List.dropWhile_idempotent _ _), List.rdropWhile_idempotent]

theorem no_fence_trim (s : JsString) (h : ¬ fence <:+: s) : ¬ fence <:+: trim s :=
  fun hc => h (hc.trans (trim_within s))

theorem stripFences_no_fence (s : JsString) : ¬ fence <:+: stripFences s :=
  no_fence_trim _ (removeAll_fence_no_fence _)

theorem trim_stripFences (s : JsString) : trim (stripFences s) = stripFences s :=
  trim_trim _

/-- A trimmed text without three backticks in a row passes the fence stage
unchanged. -/
theorem stripFences_of_clean (s : JsString) (ht : trim s = s) (hf : ¬ fence <:+: s) :
    stripFences s = s := by
  unfold stripFences
  rw [removeAll_of_no_fence fenceJson ⟨[106, 115, 111, 110], rfl⟩ s hf,
    removeAll_of_no_fence fence (List.prefix_refl _) s hf, ht]

/-- The `try` block leaves a text alone when it does not look like JSON or does
not parse. -/
theorem unwrapJson_of_not_json (host : Host) (s : JsString)
    (h : looksLikeJson s = false ∨ jsonParse s = none) : unwrapJson host s = .str s := by
  unfold unwrapJson
  rcases h with h | h
  · simp [h]
  · split
    · rw [h]
    · rfl

theorem sanitizeOutput_nil (host : Host) : sanitizeOutput host (some (.str [])) = .ok [] := rfl

theorem sanitizeOutput_cons (host : Host) (c : Nat) (cs : JsString) :
    sanitizeOutput host (some (.str (c :: cs))) =
      match unwrapJson host (trim (c :: cs)) with
      | .str s => .ok (stripFences s)
      | _ => .error (typeError host .notAFunction) := rfl

/-- Every text `sanitizeOutput` returns is trimmed and free of fences. -/
theorem sanitizeOutput_clean (host : Host) (x y : JsString)
    (h : sanitizeOutput host (some (.str x)) = .ok y) :
    trim y = y ∧ ¬ fence <:+: y := by
  cases x with
  | nil =>
    rw [sanitizeOutput_nil] at h
    cases h
    exact ⟨rfl, by simp [fence]⟩
  | cons c cs =>
    rw [sanitizeOutput_cons] at h
    split at h
    · cases h
      exact ⟨trim_stripFences _, stripFences_no_fence _⟩
    · cases h

/-! ## Facts about the step loop -/

section StepLoop

variable (host : Host) (registry : List Block)
  (exec : List Request → JsString → JsValue → BlockRun)

theorem runSteps_nil (i : Nat) (cur : JsString) (steps : List StepResult)
    (hist : List Request) :
    runSteps host registry exec [] i cur steps hist =
      { outcome := .ok { steps := steps, finalOutput := cur }, steps := steps, calls := [] } :=
  rfl

theorem runSteps_unresolved {id : JsString} (rest : List JsString) (i : Nat) (cur : JsString)
    (steps : List StepResult) (hist : List Request) (hb : getBlock registry id = none) :
    runSteps host registry exec (id :: rest) i cur steps hist =
      { outcome := .error (typeError host .propertyOfNullish), steps := steps, calls := [] } := by
  simp only [runSteps, hb]

theorem runSteps_ok {id : JsString} {block : Block} {output : JsString}
    (rest : List JsString) (i : Nat) (cur : JsString)
    (steps : List StepResult) (hist : List Request) (hb : getBlock registry id = some block)
    (hr : (exec hist id (jsStr cur)).result = .ok output) :
    runSteps host registry exec (id :: rest) i cur steps hist =
      (runSteps host registry exec rest (i + 1) output
        (steps ++ [successStep block id cur output])
        (requestsOf (exec hist id (jsStr cur)).events ++ hist)).afterCall
        { blockId := id, input := cur, run := exec hist id (jsStr cur) } := by
  simp only [runSteps, hb, hr]

theorem runSteps_error {id : JsString} {block : Block} {err : JsErr}
    (rest : List JsString) (i : Nat) (cur : JsString)
    (steps : List StepResult) (hist : List Request) (hb : getBlock registry id = some block)
    (hr : (exec hist id (jsStr cur)).result = .error err) :
    runSteps host registry exec (id :: rest) i cur steps hist =
      { outcome := .error (newError (stepFailureMessage i block.name (stepError err))),
        steps := steps ++ [failedStep block id cur err],
        calls := [{ blockId := id, input := cur, run := exec hist id (jsStr cur) }] } := by
  simp only [runSteps, hb, hr]

/-- The calls follow the requested ids, in order. -/
theorem runSteps_calls_prefix (ids : List JsString) :
    ∀ (i : Nat) (cur : JsString) (steps : List StepResult) (hist : List Request),
      (runSteps host registry exec ids i cur steps hist).calls.map Call.blockId <+: ids := by
  induction ids with
  | nil => intro i cur steps hist; simp [runSteps_nil]
  | cons id rest ih =>
    intro i cur steps hist
    cases hb : getBlock registry id with
    | none => simp [runSteps_unresolved host registry exec rest i cur steps hist hb]
    | some block =>
      cases hr : (exec hist id (jsStr cur)).result with
      | ok output =>
        rw [runSteps_ok host registry exec rest i cur steps hist hb hr]
        simp only [WorkflowRun.afterCall, List.map_cons]
        exact (List.prefix_cons_inj id).mpr (ih _ _ _ _)
      | error err =>
        rw [runSteps_error host registry exec rest i cur steps hist hb hr]
        simp only [List.map_cons, List.map_nil]
        exact (List.prefix_cons_inj id).mpr (List.nil_prefix)

/-- Every call is a call of the given `executeBlock` on its recorded arguments. -/
theorem runSteps_calls_run (ids : List JsString) :
    ∀ (i : Nat) (cur : JsString) (steps : List StepResult) (hist : List Request),
      ∀ c ∈ (runSteps host registry exec ids i cur steps hist).calls,
        ∃ h, c.run = exec h c.blockId (jsStr c.input) := by
  induction ids with
  | nil => intro i cur steps hist c hc; simp [runSteps_nil] at hc
  | cons id rest ih =>
    intro i cur steps hist c hc
    cases hb : getBlock registry id with
    | none => simp [runSteps_unresolved host registry exec rest i cur steps hist hb] at hc
    | some block =>
      cases hr : (exec hist id (jsStr cur)).result with
      | ok output =>
        rw [runSteps_ok host registry exec rest i cur steps hist hb hr] at hc
        simp only [WorkflowRun.afterCall, List.mem_cons] at hc
        rcases hc with rfl | hc
        · exact ⟨hist, rfl⟩
        · exact ih _ _ _ _ c hc
      | error err =>
        rw [runSteps_error host registry exec rest i cur steps hist hb hr] at hc
        simp only [List.mem_singleton] at hc
        subst hc
        exact ⟨hist, rfl⟩

/-- The first call receives the current input. -/
theorem runSteps_first_input (ids : List JsString) (i : Nat) (cur : JsString)
    (steps : List StepResult) (hist : List Request) (c : Call)
    (hc : (runSteps host registry exec ids i cur steps hist).calls[0]? = some c) :
    c.input = cur := by
  cases ids with
  | nil => simp [runSteps_nil] at hc
  | cons id rest =>
    cases hb : getBlock registry id with
    | none => simp [runSteps_unresolved host registry exec rest i cur steps hist hb] at hc
    | some block =>
      cases hr : (exec hist id (jsStr cur)).result with
      | ok output =>
        rw [runSteps_ok host registry exec rest i cur steps hist hb hr] at hc
        simp only [WorkflowRun.afterCall, List.getElem?_cons_zero, Option.some.injEq] at hc
        subst hc
        rfl
      | error err =>
        rw [runSteps_error host registry exec rest i cur steps hist hb hr] at hc
        simp only [List.getElem?_cons_zero, Option.some.injEq] at hc
        subst hc
        rfl

/-- Each call after the first receives what the call before it returned. -/
theorem runSteps_chain (ids : List JsString) :
    ∀ (i : Nat) (cur : JsString) (steps : List StepResult) (hist : List Request)
      (j : Nat) (c d : Call),
      (runSteps host registry exec ids i cur steps hist).calls[j]? = some c →
      (runSteps host registry exec ids i cur steps hist).calls[j + 1]? = some d →
      c.run.result = .ok d.input := by
  induction ids with
  | nil => intro i cur steps hist j c d hc; simp [runSteps_nil] at hc
  | cons id rest ih =>
    intro i cur steps hist j c d hc hd
    cases hb : getBlock registry id with
    | none => simp [runSteps_unresolved host registry exec rest i cur steps hist hb] at hc
    | some block =>
      cases hr : (exec hist id (jsStr cur)).result with
      | ok output =>
        rw [runSteps_ok host registry exec rest i cur steps hist hb hr] at hc hd
        simp only [WorkflowRun.afterCall, List.getElem?_cons_succ] at hc hd
        cases j with
        | zero =>
          simp only [List.getElem?_cons_zero, Option.some.injEq] at hc
          subst hc
          rw [runSteps_first_input host registry exec rest _ _ _ _ d hd]
          exact hr
        | succ j =>
          simp only [List.getElem?_cons_succ] at hc
          exact ih _ _ _ _ j c d hc hd
      | error err =>
        rw [runSteps_error host registry exec rest i cur steps hist hb hr] at hd
        simp at hd

/-- A call that throws is the last one, and the workflow throws the step error
built from it. -/
theorem runSteps_failure (ids : List JsString) :
    ∀ (i : Nat) (cur : JsString) (steps : List StepResult) (hist : List Request)
      (j : Nat) (c : Call) (err : JsErr),
      (runSteps host registry exec ids i cur steps hist).calls[j]? = some c →
      c.run.result = .error err →
      (runSteps host registry exec ids i cur steps hist).calls.length = j + 1 ∧
      ∃ block, getBlock registry c.blockId = some block ∧
        (runSteps host registry exec ids i cur steps hist).outcome =
          .error (newError (stepFailureMessage (i + j) block.name (stepError err))) := by
  induction ids with
  | nil => intro i cur steps hist j c err hc; simp [runSteps_nil] at hc
  | cons id rest ih =>
    intro i cur steps hist j c err hc he
    cases hb : getBlock registry id with
    | none => simp [runSteps_unresolved host registry exec rest i cur steps hist hb] at hc
    | some block =>
      cases hr : (exec hist id (jsStr cur)).result with
      | ok output =>
        rw [runSteps_ok host registry exec rest i cur steps hist hb hr] at hc ⊢
        simp only [WorkflowRun.afterCall] at hc ⊢
        cases j with
        | zero =>
          simp only [List.getElem?_cons_zero, Option.some.injEq] at hc
          subst hc
          rw [hr] at he
          cases he
        | succ j =>
          simp only [List.getElem?_cons_succ] at hc
          obtain ⟨hlen, b, hbb, hout⟩ := ih _ _ _ _ j c err hc he
          refine ⟨by simp [hlen], b, hbb, ?_⟩
          rw [hout]
          congr 3
          omega
      | error err' =>
        rw [runSteps_error host registry exec rest i cur steps hist hb hr] at hc ⊢
        cases j with
        | zero =>
          simp only [List.getElem?_cons_zero, Option.some.injEq] at hc
          subst hc
          rw [hr] at he
          cases he
          exact ⟨rfl, block, hb, rfl⟩
        | succ j => simp at hc

end StepLoop

section StepLoop

variable (host : Host) (registry : List Block)
  (exec : List Request → JsString → JsValue → BlockRun)

/-- The step list grows by one record per call. -/
theorem runSteps_steps (ids : List JsString) :
    ∀ (i : Nat) (cur : JsString) (steps : List StepResult) (hist : List Request),
      (runSteps host registry exec ids i cur steps hist).steps =
        steps ++ (runSteps host registry exec ids i cur steps hist).calls.map
          (stepOf registry) := by
  induction ids with
  | nil => intro i cur steps hist; simp [runSteps_nil]
  | cons id rest ih =>
    intro i cur steps hist
    cases hb : getBlock registry id with
    | none => simp [runSteps_unresolved host registry exec rest i cur steps hist hb]
    | some block =>
      cases hr : (exec hist id (jsStr cur)).result with
      | ok output =>
        rw [runSteps_ok host registry exec rest i cur steps hist hb hr]
        simp only [WorkflowRun.afterCall, List.map_cons]
        rw [ih]
        simp [stepOf, successStep, hb, hr, BlockRun.output, BlockRun.succeeded]
      | error err =>
        rw [runSteps_error host registry exec rest i cur steps hist hb hr]
        simp [stepOf, failedStep, hb, hr, BlockRun.output, BlockRun.succeeded]

/-- When every id resolves and every call returns, the loop runs every block and
the workflow returns the step list and the last output. -/
theorem runSteps_success (ids : List JsString) :
    ∀ (i : Nat) (cur : JsString) (steps : List StepResult) (hist : List Request),
      (∀ id ∈ ids, getBlock registry id ≠ none) →
      (∀ c ∈ (runSteps host registry exec ids i cur steps hist).calls,
        c.run.succeeded = true) →
      (runSteps host registry exec ids i cur steps hist).calls.map Call.blockId = ids ∧
      (runSteps host registry exec ids i cur steps hist).outcome =
        .ok { steps := (runSteps host registry exec ids i cur steps hist).steps,
              finalOutput :=
                (((runSteps host registry exec ids i cur steps hist).calls.getLast?).map
                  fun c => c.run.output).getD cur } := by
  induction ids with
  | nil => intro i cur steps hist _ _; simp [runSteps_nil]
  | cons id rest ih =>
    intro i cur steps hist hres hall
    cases hb : getBlock registry id with
    | none => exact absurd hb (hres id (List.mem_cons_self _ _))
    | some block =>
      cases hr : (exec hist id (jsStr cur)).result with
      | ok output =>
        rw [runSteps_ok host registry exec rest i cur steps hist hb hr] at hall ⊢
        simp only [WorkflowRun.afterCall, List.mem_cons, List.map_cons] at hall ⊢
        obtain ⟨hids, hout⟩ := ih (i + 1) output
          (steps ++ [successStep block id cur output])
          (requestsOf (exec hist id (jsStr cur)).events ++ hist)
          (fun x hx => hres x (List.mem_cons_of_mem _ hx))
          (fun c hc => hall c (Or.inr hc))
        refine ⟨by rw [hids], ?_⟩
        rw [hout]
        congr 2
        cases hl : (runSteps host registry exec rest (i + 1) output
            (steps ++ [successStep block id cur output])
            (requestsOf (exec hist id (jsStr cur)).events ++ hist)).calls with
        | nil => simp [BlockRun.output, hr]
        | cons c cs =>
          rw [List.getLast?_cons_cons, List.getLast?_eq_getLast _ (List.cons_ne_nil c cs)]
          rfl
      | error err =>
        rw [runSteps_error host registry exec rest i cur steps hist hb hr] at hall
        have := hall _ (List.mem_singleton_self _)
        simp [BlockRun.succeeded, hr] at this

/-- When the workflow returns, every block ran and every call returned. -/
theorem runSteps_returns (ids : List JsString) :
    ∀ (i : Nat) (cur : JsString) (steps : List StepResult) (hist : List Request)
      (w : WorkflowResult),
      (runSteps host registry exec ids i cur steps hist).outcome = .ok w →
      (runSteps host registry exec ids i cur steps hist).calls.length = ids.length ∧
      (∀ c ∈ (runSteps host registry exec ids i cur steps hist).calls,
        c.run.succeeded = true) := by
  induction ids with
  | nil => intro i cur steps hist w _; simp [runSteps_nil]
  | cons id rest ih =>
    intro i cur steps hist w hw
    cases hb : getBlock registry id with
    | none =>
      rw [runSteps_unresolved host registry exec rest i cur steps hist hb] at hw
      cases hw
    | some block =>
      cases hr : (exec hist id (jsStr cur)).result with
      | ok output =>
        rw [runSteps_ok host registry exec rest i cur steps hist hb hr] at hw ⊢
        simp only [WorkflowRun.afterCall] at hw ⊢
        obtain ⟨hlen, hall⟩ := ih _ _ _ _ w hw
        refine ⟨by simp [hlen], ?_⟩
        intro c hc
        rcases List.mem_cons.mp hc with rfl | hc
        · simp [BlockRun.succeeded, hr]
        · exact hall c hc
      | error err =>
        rw [runSteps_error host registry exec rest i cur steps hist hb hr] at hw
        cases hw

end StepLoop

/-! ## Facts about `executeBlock` -/

theorem formatError_ne_nil (err : JsErr) : formatError err ≠ [] := by
  unfold formatError
  cases hm : err.message with
  | nil => simp; decide
  | cons c cs =>
    simp only [List.isEmpty_cons, Bool.not_false, if_true]
    split
    · decide
    · split
      · decide
      · split
        · decide
        · split
          · decide
          · simp

theorem validateInput_error_ne_nil (host : Host) (text : JsValue)
    (h : (validateInput host text).valid = false) :
    (validateInput host text).error.getD [] ≠ [] := by
  unfold validateInput at h ⊢
  split
  · split
    · simp; decide
    · split
      · simp; decide
      · split
        · simp [utf16, encodeUtf16]
        · rename_i h1 h2 h3
          simp [h1, h2, h3] at h
  · simp; decide

/-- The retry loop throws no error with an empty message. -/
theorem attemptLoop_message_ne_nil (host : Host) (net : Network) (req : Request) :
    ∀ (remaining attempt : Nat) (hist : List Request) (last : Option JsErr) (err : JsErr),
      attempt + remaining = MAX_RETRIES + 1 → 0 < remaining →
      (attemptLoop host net req remaining attempt hist last).result = .error err →
      err.message ≠ [] := by
  intro remaining
  induction remaining with
  | zero => intro attempt hist last err _ hpos; omega
  | succ r ih =>
    intro attempt hist last err hsum _ hres
    have hrec : ∀ (last' : Option JsErr), attempt < MAX_RETRIES →
        (attemptLoop host net req r (attempt + 1) (req :: hist) last').result = .error err →
        err.message ≠ [] := by
      intro last' hlt h
      have hr : 0 < r := by simp only [MAX_RETRIES] at hlt hsum; omega
      exact ih (attempt + 1) (req :: hist) last' err (by omega) hr h
    unfold attemptLoop at hres
    split at hres
    · cases hres
    · rename_i delay hretry
      have hlt : attempt < MAX_RETRIES := by
        unfold tryAttempt at hretry
        split at hretry
        · cases hretry
        · split at hretry
          · split at hretry
            · cases hretry
            · split at hretry
              · split at hretry
                · assumption
                · cases hretry
              · cases hretry
          · split at hretry
            · cases hretry
            · split at hretry
              · cases hretry
              · split at hretry <;> cases hretry
      exact hrec last hlt hres
    · rename_i e hthrown
      split at hres
      · cases hres; decide
      · split at hres
        · cases hres; decide
        · split at hres
          · cases hres; exact formatError_ne_nil e
          · split at hres
            · cases hres; exact formatError_ne_nil e
            · rename_i hge
              exact hrec (some e) (by omega) hres

/-- The function `executeBlock` throws no error with an empty message. -/
theorem executeBlock_message_ne_nil (host : Host) (cfg : Config) (registry : List Block)
    (net : Network) (hist : List Request) (blockId : JsString) (input : JsValue)
    (err : JsErr)
    (h : (executeBlock host cfg registry net hist blockId input).result = .error err) :
    err.message ≠ [] := by
  unfold executeBlock at h
  split at h
  · rename_i hv
    cases h
    exact validateInput_error_ne_nil host input (by simpa using hv)
  · split at h
    · cases h
      simp [newError, utf16, encodeUtf16]
    · split at h
      · cases h; decide
      · split at h
        · cases h; decide
        · exact attemptLoop_message_ne_nil host net _ (MAX_RETRIES + 1) 0 _ _ err rfl
            (by decide) h

theorem stepError_executeBlock (host : Host) (cfg : Config) (registry : List Block)
    (net : Network) (hist : List Request) (blockId : JsString) (input : JsValue)
    (err : JsErr)
    (h : (executeBlock host cfg registry net hist blockId input).result = .error err) :
    stepError err = err.message := by
  have := executeBlock_message_ne_nil host cfg registry net hist blockId input err h
  unfold stepError
  cases hm : err.message with
  | nil => exact absurd hm this
  | cons c cs => rfl

/-! ## Facts about `executeWorkflow` -/

theorem validateInput_valid (host : Host) (input : JsValue)
    (h : (validateInput host input).valid = true) :
    ∃ t, input = jsStr t ∧ (validateInput host input).text = some (trim t) := by
  unfold validateInput at h ⊢
  split
  · rename_i t
    refine ⟨t, rfl, ?_⟩
    split
    · rename_i h1; simp [h1] at h
    · split
      · rename_i h1 h2; simp [h1, h2] at h
      · split
        · rename_i h1 h2 h3; simp [h1, h2, h3] at h
        · rfl
  · simp at h

theorem find_unresolved_none (registry : List Block) (ids : List JsString) :
    (ids.find? fun blockId => (getBlock registry blockId).isNone) = none ↔
      ∀ id ∈ ids, getBlock registry id ≠ none := by
  rw [List.find?_eq_none]
  constructor
  · intro h id hid hnone
    exact h id hid (by simp [hnone])
  · intro h id hid
    cases hb : getBlock registry id with
    | none => exact absurd hb (h id hid)
    | some b => simp

/-- A run of `executeWorkflow` either stops at a precondition, before any call,
or is the step loop on the trimmed input and all the requested ids. -/
theorem executeWorkflowWith_cases (host : Host) (registry : List Block)
    (exec : List Request → JsString → JsValue → BlockRun)
    (blockIds : Option (List JsString)) (input : JsValue) :
    ((executeWorkflowWith host registry exec blockIds input).calls = [] ∧
      (executeWorkflowWith host registry exec blockIds input).steps = [] ∧
      ∃ err, (executeWorkflowWith host registry exec blockIds input).outcome = .error err) ∨
    ∃ ids t, blockIds = some ids ∧ ids ≠ [] ∧ input = jsStr t ∧
      (validateInput host input).valid = true ∧
      (∀ id ∈ ids, getBlock registry id ≠ none) ∧
      executeWorkflowWith host registry exec blockIds input =
        runSteps host registry exec ids 0 (trim t) [] [] := by
  unfold executeWorkflowWith
  cases hv : (validateInput host input).valid with
  | false => exact Or.inl ⟨rfl, rfl, _, rfl⟩
  | true =>
    obtain ⟨t, ht, htext⟩ := validateInput_valid host input hv
    simp only [Bool.not_true, Bool.false_eq_true, if_false]
    match blockIds with
    | none => exact Or.inl ⟨rfl, rfl, _, rfl⟩
    | some [] => exact Or.inl ⟨rfl, rfl, _, rfl⟩
    | some (id :: ids) =>
      simp only
      cases hf : (id :: ids).find? fun blockId => (getBlock registry blockId).isNone with
      | some bad => exact Or.inl ⟨rfl, rfl, _, rfl⟩
      | none =>
        refine Or.inr ⟨id :: ids, t, rfl, by simp, ht, trivial, ?_, ?_⟩
        · exact (find_unresolved_none registry _).mp hf
        · simp [htext]

/-! ## Facts about the registry -/

/-- The table after `putEntry`: the first entry with the id is replaced in place,
or, when there is none, the entry is appended. -/
theorem putEntry_cases (registry : List Block) (entry : Block) :
    (∃ pre old post, registry = pre ++ old :: post ∧ old.id = entry.id ∧
        (∀ x ∈ pre, x.id ≠ entry.id) ∧ putEntry registry entry = pre ++ entry :: post) ∨
      ((∀ x ∈ registry, x.id ≠ entry.id) ∧ putEntry registry entry = registry ++ [entry]) := by
  unfold putEntry
  induction registry with
  | nil => exact Or.inr ⟨by simp, rfl⟩
  | cons x xs ih =>
    by_cases hx : x.id = entry.id
    · refine Or.inl ⟨[], x, xs, rfl, hx, by simp, ?_⟩
      simp [List.findIdx?_cons, hx]
    · rcases ih with ⟨pre, old, post, hxs, hold, hpre, hput⟩ | ⟨hall, hput⟩
      · refine Or.inl ⟨x :: pre, old, post, by rw [hxs]; rfl, hold, ?_, ?_⟩
        · intro y hy
          rcases List.mem_cons.mp hy with rfl | hy
          · exact hx
          · exact hpre y hy
        · simp only [List.findIdx?_cons, hx, decide_False, Bool.false_eq_true, if_false,
            List.findIdx?_succ]
          cases hf : xs.findIdx? (fun b => decide (b.id = entry.id)) 0 with
          | none =>
            rw [hf] at hput
            simp only at hput
            have hmem : old ∈ xs := by rw [hxs]; simp
            have := (List.findIdx?_eq_none_iff.mp hf) old hmem
            simp [hold] at this
          | some i =>
            rw [hf] at hput
            simp only at hput
            simp only [Option.map_some', List.set_cons_succ, List.cons_append]
            rw [hput]
      · refine Or.inr ⟨?_, ?_⟩
        · intro y hy
          rcases List.mem_cons.mp hy with rfl | hy
          · exact hx
          · exact hall y hy
        · have hf : xs.findIdx? (fun b => decide (b.id = entry.id)) 0 = none :=
            List.findIdx?_eq_none_iff.mpr (fun y hy => by simp [hall y hy])
          simp [List.findIdx?_cons, hx, List.findIdx?_succ, hf]

theorem getBlock_append_of_not_mem (pre rest : List Block) (id : JsString)
    (h : ∀ x ∈ pre, x.id ≠ id) : getBlock (pre ++ rest) id = getBlock rest id := by
  unfold getBlock
  rw [List.find?_append]
  have : pre.find? (fun block => decide (block.id = id)) = none :=
    List.find?_eq_none.mpr (fun x hx => by simp [h x hx])
  rw [this]
  rfl

theorem getBlock_cons (x : Block) (rest : List Block) (id : JsString) :
    getBlock (x :: rest) id = if x.id = id then some x else getBlock rest id := by
  unfold getBlock
  by_cases h : x.id = id <;> simp [List.find?_cons, h]

theorem getBlock_eq_none_iff (registry : List Block) (id : JsString) :
    getBlock registry id = none ↔ ∀ x ∈ registry, x.id ≠ id := by
  unfold getBlock
  rw [List.find?_eq_none]
  simp

/-- After `putEntry` the lookup of the id returns the entry. -/
theorem getBlock_putEntry_self (registry : List Block) (entry : Block) :
    getBlock (putEntry registry entry) entry.id = some entry := by
  rcases putEntry_cases registry entry with ⟨pre, old, post, _, _, hpre, hput⟩ | ⟨hall, hput⟩
  · rw [hput, getBlock_append_of_not_mem pre _ _ hpre, getBlock_cons]
    simp
  · rw [hput, getBlock_append_of_not_mem registry _ _ hall, getBlock_cons]
    simp

/-- After `putEntry` the lookup of any other id is as before. -/
theorem getBlock_putEntry_other (registry : List Block) (entry : Block) (id : JsString)
    (hid : id ≠ entry.id) : getBlock (putEntry registry entry) id = getBlock registry id := by
  rcases putEntry_cases registry entry with ⟨pre, old, post, hreg, hold, _, hput⟩ | ⟨_, hput⟩
  · rw [hput, hreg]
    unfold getBlock
    rw [List.find?_append, List.find?_append, List.find?_cons, List.find?_cons]
    have h1 : decide (entry.id = id) = false := by simp [Ne.symm hid]
    have h2 : decide (old.id = id) = false := by simp [hold, Ne.symm hid]
    rw [h1, h2]
  · rw [hput]
    unfold getBlock
    rw [List.find?_append]
    have h1 : [entry].find? (fun block => decide (block.id = id)) = none := by
      simp [List.find?_cons, Ne.symm hid]
    rw [h1]
    simp

/-- The ids of the table after `putEntry`. -/
theorem putEntry_ids (registry : List Block) (entry : Block) :
    (getBlock registry entry.id ≠ none ∧
        (putEntry registry entry).map Block.id = registry.map Block.id) ∨
      (getBlock registry entry.id = none ∧
        (putEntry registry entry).map Block.id = registry.map Block.id ++ [entry.id]) := by
  rcases putEntry_cases registry entry with ⟨pre, old, post, hreg, hold, hpre, hput⟩ | ⟨hall, hput⟩
  · refine Or.inl ⟨?_, ?_⟩
    · rw [hreg, getBlock_append_of_not_mem pre _ _ hpre, getBlock_cons]
      simp [hold]
    · rw [hput, hreg]
      simp [hold]
  · refine Or.inr ⟨(getBlock_eq_none_iff _ _).mpr hall, ?_⟩
    rw [hput]
    simp

theorem putEntry_nodup (registry : List Block) (entry : Block)
    (h : (registry.map Block.id).Nodup) : ((putEntry registry entry).map Block.id).Nodup := by
  rcases putEntry_ids registry entry with ⟨_, hids⟩ | ⟨hnone, hids⟩
  · rw [hids]
    exact h
  · rw [hids]
    refine List.Nodup.append h (List.nodup_singleton _) ?_
    intro a ha hb
    rw [List.mem_singleton] at hb
    subst hb
    obtain ⟨x, hx, hxid⟩ := List.mem_map.mp ha
    exact (getBlock_eq_none_iff _ _).mp hnone x hx hxid

theorem blocks_ids_nodup : (blocks.map Block.id).Nodup := by
  decide

/-! ## The workflow engine -/

/-- C1: for a non-empty list of ids that all resolve and an input that passes
`validateInput`, if every call of `executeBlock` made by the run returns, then
`executeWorkflow` returns a result with one step per requested block, in
request order, each with the registry name of its block, `success = true` and
`error = null`, and `finalOutput` is the output of the last step. -/
theorem executeWorkflow_full_success (host : Host) (cfg : Config) (registry : List Block)
    (net : Network) (ids : List JsString) (input : JsValue)
    (hne : ids ≠ []) (hres : ∀ id ∈ ids, getBlock registry id ≠ none)
    (hvalid : (validateInput host input).valid = true)
    (hall : ∀ c ∈ (executeWorkflow host cfg registry net (some ids) input).calls,
      c.run.succeeded = true) :
    ∃ result, (executeWorkflow host cfg registry net (some ids) input).outcome = .ok result ∧
      result.steps.length = ids.length ∧
      result.steps.map StepResult.blockId = ids ∧
      result.steps.map StepResult.blockName =
        ids.map (fun id => ((getBlock registry id).map Block.name).getD []) ∧
      (∀ s ∈ result.steps, s.success = true ∧ s.error = none) ∧
      result.steps.getLast?.map StepResult.output = some result.finalOutput := by
  unfold executeWorkflow at hall ⊢
  rcases executeWorkflowWith_cases host registry (executeBlock host cfg registry net)
    (some ids) input with ⟨hcalls, hsteps, err, herr⟩ | ⟨ids', t, hids, _, _, _, _, hrun⟩
  · exfalso
    unfold executeWorkflowWith at herr hcalls
    simp only [hvalid, Bool.not_true, Bool.false_eq_true, if_false] at herr hcalls
    cases ids with
    | nil => exact hne rfl
    | cons id rest =>
      simp only [(find_unresolved_none registry (id :: rest)).mpr hres] at herr hcalls
      obtain ⟨_, hout⟩ := runSteps_success host registry (executeBlock host cfg registry net)
        (id :: rest) 0 _ [] [] hres (by rw [hcalls]; simp)
      rw [hout] at herr
      cases herr
  · cases hids
    rw [hrun] at hall ⊢
    obtain ⟨hmap, hout⟩ := runSteps_success host registry (executeBlock host cfg registry net)
      ids 0 (trim t) [] [] hres hall
    have hsteps := runSteps_steps host registry (executeBlock host cfg registry net)
      ids 0 (trim t) [] []
    generalize (runSteps host registry (executeBlock host cfg registry net)
      ids 0 (trim t) [] []) = run at hall hmap hout hsteps
    simp only [List.nil_append] at hsteps
    refine ⟨_, hout, ?_, ?_, ?_, ?_, ?_⟩
    · show run.steps.length = ids.length
      rw [hsteps, List.length_map, ← hmap, List.length_map]
    · show run.steps.map StepResult.blockId = ids
      rw [hsteps, List.map_map, ← hmap]
      rfl
    · show run.steps.map StepResult.blockName = _
      rw [hsteps, List.map_map, ← hmap, List.map_map]
      rfl
    · intro s hs
      change s ∈ run.steps at hs
      rw [hsteps] at hs
      obtain ⟨c, hc, rfl⟩ := List.mem_map.mp hs
      have hsucc := hall c hc
      refine ⟨hsucc, ?_⟩
      unfold BlockRun.succeeded at hsucc
      unfold stepOf
      cases hr : c.run.result with
      | ok o => rfl
      | error e => rw [hr] at hsucc; cases hsucc
    · show run.steps.getLast?.map StepResult.output = some _
      have hcne : run.calls ≠ [] := by
        intro h
        rw [h] at hmap
        exact hne hmap.symm
      rw [hsteps, List.getLast?_map, List.getLast?_eq_getLast _ hcne]
      rfl

/-- C1 on two blocks of the initial table and a service that always answers. -/
theorem executeWorkflow_full_success_witness :
    ForEveryHost fun host =>
      ∃ result,
        (executeWorkflow host sampleConfig blocks steadyService
          (some [utf16 "summarizeText", utf16 "translateText"])
          (jsStr (utf16 " some text "))).outcome = .ok result ∧
        result.steps.length = 2 ∧
        result.steps.map StepResult.blockId = [utf16 "summarizeText", utf16 "translateText"] ∧
        result.steps.map StepResult.blockName =
          [utf16 "summarizeText", utf16 "translateText"].map
            (fun id => ((getBlock blocks id).map Block.name).getD []) ∧
        (∀ s ∈ result.steps, s.success = true ∧ s.error = none) ∧
        result.steps.getLast?.map StepResult.output = some result.finalOutput :=
  fun host =>
    executeWorkflow_full_success host sampleConfig blocks steadyService
      [utf16 "summarizeText", utf16 "translateText"] (jsStr (utf16 " some text "))
      (by simp)
      (fun id hid hnone => by
        rcases List.mem_cons.mp hid with rfl | hid
        · cases hnone
        · rcases List.mem_cons.mp hid with rfl | hid
          · cases hnone
          · cases hid)
      rfl
      (fun c hc => List.all_eq_true.mp
        (rfl : ((executeWorkflow host sampleConfig blocks steadyService
          (some [utf16 "summarizeText", utf16 "translateText"])
          (jsStr (utf16 " some text "))).calls.all fun c => c.run.succeeded) = true) c hc)

/-- C2: when the call of `executeBlock` for step `j + 1` throws an error with
message `m`, `executeWorkflow` throws an error whose message is
`Workflow failed at step <j + 1> (<block name>): m`, the block being the one
requested at that position. A call exists at position `j` only when the calls
before it returned, and `executeBlock` throws no error with an empty message, so
the fallback text of the `catch` block never replaces `m`. -/
theorem executeWorkflow_step_failure_message (host : Host) (cfg : Config)
    (registry : List Block) (net : Network) (ids : List JsString) (input : JsValue)
    (j : Nat) (c : Call) (err : JsErr)
    (hc : (executeWorkflow host cfg registry net (some ids) input).calls[j]? = some c)
    (herr : c.run.result = .error err) :
    ∃ block, ids[j]? = some c.blockId ∧ getBlock registry c.blockId = some block ∧
      (executeWorkflow host cfg registry net (some ids) input).outcome =
        .error (newError (utf16 "Workflow failed at step " ++ decimal (j + 1) ++ utf16 " ("
          ++ block.name ++ utf16 "): " ++ err.message)) := by
  unfold executeWorkflow at hc ⊢
  rcases executeWorkflowWith_cases host registry (executeBlock host cfg registry net)
    (some ids) input with ⟨hcalls, _, _⟩ | ⟨ids', t, hids, _, _, _, _, hrun⟩
  · rw [hcalls] at hc
    simp at hc
  · cases hids
    rw [hrun] at hc ⊢
    obtain ⟨_, block, hb, hout⟩ := runSteps_failure host registry
      (executeBlock host cfg registry net) ids 0 (trim t) [] [] j c err hc herr
    obtain ⟨h, hrunc⟩ := runSteps_calls_run host registry
      (executeBlock host cfg registry net) ids 0 (trim t) [] [] c (List.mem_iff_getElem?.mpr ⟨j, hc⟩)
    have hstep : stepError err = err.message :=
      stepError_executeBlock host cfg registry net h c.blockId (jsStr c.input) err
        (hrunc ▸ herr)
    have hpre := runSteps_calls_prefix host registry (executeBlock host cfg registry net)
      ids 0 (trim t) [] []
    refine ⟨block, ?_, hb, ?_⟩
    · have hmap : ((runSteps host registry (executeBlock host cfg registry net)
          ids 0 (trim t) [] []).calls.map Call.blockId)[j]? = some c.blockId := by
        rw [List.getElem?_map, hc]
        rfl
      obtain ⟨rest, hrest⟩ := hpre
      rw [← hrest]
      rw [List.getElem?_append_left (by
        by_contra hlt
        rw [List.getElem?_eq_none (by omega)] at hmap
        cases hmap)]
      exact hmap
    · rw [hout, hstep, Nat.zero_add]
      rfl

/-- C2 on a service whose second answer is HTTP 500 with the message `boom`. -/
theorem executeWorkflow_step_failure_message_witness :
    ForEveryHost fun host =>
      ∃ block, [utf16 "summarizeText", utf16 "translateText", utf16 "convertToTable"][1]?
          = some (utf16 "translateText") ∧
        getBlock blocks (utf16 "translateText") = some block ∧
        (executeWorkflow host sampleConfig blocks secondFails
          (some [utf16 "summarizeText", utf16 "translateText", utf16 "convertToTable"])
          (jsStr (utf16 "some text"))).outcome =
          .error (newError (utf16 "Workflow failed at step " ++ decimal (1 + 1) ++ utf16 " ("
            ++ block.name ++ utf16 "): " ++ utf16 "boom")) :=
  fun host =>
    executeWorkflow_step_failure_message host sampleConfig blocks secondFails
      [utf16 "summarizeText", utf16 "translateText", utf16 "convertToTable"]
      (jsStr (utf16 "some text")) 1
      { blockId := utf16 "translateText", input := utf16 "first",
        run := { result := .error (newError (utf16 "boom")),
                 events := [.fetch { authorization := utf16 "Bearer sk-key",
                                     system := ((getBlock blocks (utf16 "translateText")).map
                                       Block.prompt).getD [],
                                     user := utf16 "first" }] } }
      (newError (utf16 "boom")) rfl rfl

/-- C3 fails on the code: the second step fails after the first succeeded, the
step list holds both records when the function exits, and the error thrown
carries only a message: reading `partialResults` on it gives `undefined`. -/
theorem executeWorkflow_error_without_partialResults :
    ForEveryHost fun host =>
      (executeWorkflow host sampleConfig blocks secondFails
          (some [utf16 "summarizeText", utf16 "translateText", utf16 "convertToTable"])
          (jsStr (utf16 "some text"))).outcome =
        .error { name := utf16 "Error",
                 message := utf16 "Workflow failed at step 2 (translateText): boom",
                 partialResults := none } ∧
      (executeWorkflow host sampleConfig blocks secondFails
          (some [utf16 "summarizeText", utf16 "translateText", utf16 "convertToTable"])
          (jsStr (utf16 "some text"))).steps =
        [{ blockId := utf16 "summarizeText", blockName := utf16 "summarizeText",
           input := utf16 "some text", output := utf16 "first", success := true,
           error := none },
         { blockId := utf16 "translateText", blockName := utf16 "translateText",
           input := utf16 "first", output := [], success := false,
           error := some (utf16 "boom") }] :=
  fun _ => ⟨rfl, rfl⟩

/-- C4: `executeWorkflow` checks its preconditions in order and before any
call of `executeBlock`: an invalid input fails with the validation message; else
a missing or empty id list fails with the selection message; else the first id
that does not resolve fails with `Block not found: <id>`. No call is made in any
of the three cases. -/
theorem executeWorkflow_preconditions (host : Host) (cfg : Config) (registry : List Block)
    (net : Network) (blockIds : Option (List JsString)) (input : JsValue) :
    ((validateInput host input).valid = false →
      (executeWorkflow host cfg registry net blockIds input).outcome =
          .error (newError ((validateInput host input).error.getD [])) ∧
        (executeWorkflow host cfg registry net blockIds input).calls = []) ∧
    ((validateInput host input).valid = true → (blockIds = none ∨ blockIds = some []) →
      (executeWorkflow host cfg registry net blockIds input).outcome =
          .error (newError (utf16 "Please select at least one block for the workflow.")) ∧
        (executeWorkflow host cfg registry net blockIds input).calls = []) ∧
    ((validateInput host input).valid = true →
      ∀ (before : List JsString) (id : JsString) (after : List JsString),
        blockIds = some (before ++ id :: after) →
        (∀ x ∈ before, getBlock registry x ≠ none) → getBlock registry id = none →
        (executeWorkflow host cfg registry net blockIds input).outcome =
            .error (newError (utf16 "Block not found: " ++ id)) ∧
          (executeWorkflow host cfg registry net blockIds input).calls = []) := by
  unfold executeWorkflow executeWorkflowWith
  refine ⟨?_, ?_, ?_⟩
  · intro hv
    simp [hv]
  · intro hv hids
    rcases hids with rfl | rfl <;> simp [hv]
  · intro hv before id after hids hbefore hid
    subst hids
    have hfind : ((before ++ id :: after).find? fun blockId =>
        (getBlock registry blockId).isNone) = some id := by
      rw [List.find?_append]
      have h1 : (before.find? fun blockId => (getBlock registry blockId).isNone) = none :=
        (find_unresolved_none registry before).mpr hbefore
      rw [h1]
      simp [hid]
    cases hl : before ++ id :: after with
    | nil => simp at hl
    | cons a rest =>
      rw [hl] at hfind
      simp only [hv, Bool.not_true, Bool.false_eq_true, if_false, hfind]
      exact ⟨trivial, trivial⟩

/-- C4 at the example of the specification: one unknown id, a valid text. -/
theorem executeWorkflow_preconditions_witness :
    ForEveryHost fun host =>
      (executeWorkflow host sampleConfig blocks steadyService
          (some [utf16 "doesNotExist"]) (jsStr (utf16 "some text"))).outcome =
          .error (newError (utf16 "Block not found: " ++ utf16 "doesNotExist")) ∧
        (executeWorkflow host sampleConfig blocks steadyService
          (some [utf16 "doesNotExist"]) (jsStr (utf16 "some text"))).calls = [] :=
  fun host =>
    (executeWorkflow_preconditions host sampleConfig blocks steadyService
      (some [utf16 "doesNotExist"]) (jsStr (utf16 "some text"))).2.2 rfl
      [] (utf16 "doesNotExist") [] rfl (fun _ h => by cases h) rfl

/-- C5: the input recorded for a step is the input passed to `executeBlock`; the
first call receives the trimmed initial input, and every later call and step
receives the output of the step before it. -/
theorem executeWorkflow_chaining (host : Host) (cfg : Config) (registry : List Block)
    (net : Network) (blockIds : Option (List JsString)) (input : JsValue) :
    (executeWorkflow host cfg registry net blockIds input).steps.map StepResult.input =
        (executeWorkflow host cfg registry net blockIds input).calls.map Call.input ∧
    (∀ c, (executeWorkflow host cfg registry net blockIds input).calls[0]? = some c →
      ∃ t, input = jsStr t ∧ c.input = trim t) ∧
    (∀ j c d, (executeWorkflow host cfg registry net blockIds input).calls[j]? = some c →
      (executeWorkflow host cfg registry net blockIds input).calls[j + 1]? = some d →
      c.run.result = .ok d.input) ∧
    (∀ j s s', (executeWorkflow host cfg registry net blockIds input).steps[j]? = some s →
      (executeWorkflow host cfg registry net blockIds input).steps[j + 1]? = some s' →
      s'.input = s.output) := by
  unfold executeWorkflow
  rcases executeWorkflowWith_cases host registry (executeBlock host cfg registry net)
    blockIds input with ⟨hcalls, hsteps, _⟩ | ⟨ids, t, _, _, ht, _, _, hrun⟩
  · rw [hcalls, hsteps]
    simp
  · rw [hrun]
    have hsteps := runSteps_steps host registry (executeBlock host cfg registry net)
      ids 0 (trim t) [] []
    have hfirst := runSteps_first_input host registry (executeBlock host cfg registry net)
      ids 0 (trim t) [] []
    have hchain := runSteps_chain host registry (executeBlock host cfg registry net)
      ids 0 (trim t) [] []
    generalize (runSteps host registry (executeBlock host cfg registry net)
      ids 0 (trim t) [] []) = run at hsteps hfirst hchain
    simp only [List.nil_append] at hsteps
    refine ⟨?_, ?_, hchain, ?_⟩
    · rw [hsteps, List.map_map]
      rfl
    · intro c hc
      exact ⟨t, ht, hfirst c hc⟩
    · intro j s s' hs hs'
      rw [hsteps, List.getElem?_map] at hs hs'
      cases hc : run.calls[j]? with
      | none => rw [hc] at hs; cases hs
      | some c =>
        cases hd : run.calls[j + 1]? with
        | none => rw [hd] at hs'; cases hs'
        | some d =>
          rw [hc] at hs
          rw [hd] at hs'
          cases hs
          cases hs'
          have := hchain j c d hc hd
          simp [stepOf, BlockRun.output, this]

/-- C5 on a run of two calls: the first receives the trimmed text, the second
the output of the first. -/
theorem executeWorkflow_chaining_witness :
    ForEveryHost fun host =>
      ∃ c d,
        (executeWorkflow host sampleConfig blocks secondFails
          (some [utf16 "summarizeText", utf16 "translateText", utf16 "convertToTable"])
          (jsStr (utf16 "  some text "))).calls = [c, d] ∧
        (∃ t, jsStr (utf16 "  some text ") = jsStr t ∧ c.input = trim t) ∧
        c.run.result = .ok d.input ∧ d.input = utf16 "first" :=
  fun host =>
    ⟨{ blockId := utf16 "summarizeText", input := utf16 "some text",
       run := executeBlock host sampleConfig blocks secondFails [] (utf16 "summarizeText")
         (jsStr (utf16 "some text")) },
     { blockId := utf16 "translateText", input := utf16 "first",
       run := { result := .error (newError (utf16 "boom")),
                events := [.fetch { authorization := utf16 "Bearer sk-key",
                                    system := ((getBlock blocks (utf16 "translateText")).map
                                      Block.prompt).getD [],
                                    user := utf16 "first" }] } },
     rfl,
     (executeWorkflow_chaining host sampleConfig blocks secondFails
        (some [utf16 "summarizeText", utf16 "translateText", utf16 "convertToTable"])
        (jsStr (utf16 "  some text "))).2.1 _ rfl,
     (executeWorkflow_chaining host sampleConfig blocks secondFails
        (some [utf16 "summarizeText", utf16 "translateText", utf16 "convertToTable"])
        (jsStr (utf16 "  some text "))).2.2.1 0 _ _ rfl rfl,
     rfl⟩

/-- C6: the calls of `executeBlock` follow the requested ids in order, one per
position; there is one step record per call and never more than requested; a
call that throws is the last one, so that a first failure at step `j + 1` means
exactly `j + 1` calls; and the step list reaches the requested length without a
failed call exactly when the workflow returns. -/
theorem executeWorkflow_short_circuit (host : Host) (cfg : Config) (registry : List Block)
    (net : Network) (ids : List JsString) (input : JsValue) :
    (executeWorkflow host cfg registry net (some ids) input).calls.map Call.blockId <+: ids ∧
    (executeWorkflow host cfg registry net (some ids) input).steps.length =
      (executeWorkflow host cfg registry net (some ids) input).calls.length ∧
    (executeWorkflow host cfg registry net (some ids) input).calls.length ≤ ids.length ∧
    (∀ j c, (executeWorkflow host cfg registry net (some ids) input).calls[j]? = some c →
      c.run.succeeded = false →
      (executeWorkflow host cfg registry net (some ids) input).calls.length = j + 1) ∧
    ((∃ w, (executeWorkflow host cfg registry net (some ids) input).outcome = .ok w) →
      (executeWorkflow host cfg registry net (some ids) input).steps.length = ids.length ∧
      ∀ c ∈ (executeWorkflow host cfg registry net (some ids) input).calls,
        c.run.succeeded = true) ∧
    (ids ≠ [] →
      (executeWorkflow host cfg registry net (some ids) input).steps.length = ids.length →
      (∀ c ∈ (executeWorkflow host cfg registry net (some ids) input).calls,
        c.run.succeeded = true) →
      ∃ w, (executeWorkflow host cfg registry net (some ids) input).outcome = .ok w) := by
  unfold executeWorkflow
  rcases executeWorkflowWith_cases host registry (executeBlock host cfg registry net)
    (some ids) input with ⟨hcalls, hsteps, err, herr⟩ | ⟨ids', t, hids, _, _, _, hres, hrun⟩
  · rw [hcalls, hsteps, herr]
    refine ⟨by simp, rfl, by simp, by simp, ?_, ?_⟩
    · rintro ⟨w, hw⟩
      cases hw
    · intro hne hlen
      exact absurd (List.length_eq_zero.mp hlen.symm) hne
  · cases hids
    rw [hrun]
    have hsteps := runSteps_steps host registry (executeBlock host cfg registry net)
      ids 0 (trim t) [] []
    have hpre := runSteps_calls_prefix host registry (executeBlock host cfg registry net)
      ids 0 (trim t) [] []
    have hfail := runSteps_failure host registry (executeBlock host cfg registry net)
      ids 0 (trim t) [] []
    have hret := runSteps_returns host registry (executeBlock host cfg registry net)
      ids 0 (trim t) [] []
    have hsucc := runSteps_success host registry (executeBlock host cfg registry net)
      ids 0 (trim t) [] [] hres
    generalize (runSteps host registry (executeBlock host cfg registry net)
      ids 0 (trim t) [] []) = run at hsteps hpre hfail hret hsucc
    simp only [List.nil_append] at hsteps
    have hlen : run.steps.length = run.calls.length := by
      rw [hsteps, List.length_map]
    refine ⟨hpre, hlen, ?_, ?_, ?_, ?_⟩
    · have := hpre.length_le
      simpa using this
    · intro j c hc hfalse
      cases hr : c.run.result with
      | ok o => simp [BlockRun.succeeded, hr] at hfalse
      | error err => exact (hfail j c err hc hr).1
    · rintro ⟨w, hw⟩
      obtain ⟨h1, h2⟩ := hret w hw
      exact ⟨by rw [hlen, h1], h2⟩
    · intro _ _ hall
      exact ⟨_, (hsucc hall).2⟩

/-- C6 on three requested blocks when the second call throws: two calls, for the
first two ids, two step records, and no call for the third block. -/
theorem executeWorkflow_short_circuit_witness :
    ForEveryHost fun host =>
      (executeWorkflow host sampleConfig blocks secondFails
          (some [utf16 "summarizeText", utf16 "translateText", utf16 "convertToTable"])
          (jsStr (utf16 "some text"))).calls.map Call.blockId
        = [utf16 "summarizeText", utf16 "translateText"] ∧
      (executeWorkflow host sampleConfig blocks secondFails
          (some [utf16 "summarizeText", utf16 "translateText", utf16 "convertToTable"])
          (jsStr (utf16 "some text"))).calls.length = 1 + 1 ∧
      (executeWorkflow host sampleConfig blocks secondFails
          (some [utf16 "summarizeText", utf16 "translateText", utf16 "convertToTable"])
          (jsStr (utf16 "some text"))).steps.length = 1 + 1 :=
  fun host =>
    have h := executeWorkflow_short_circuit host sampleConfig blocks secondFails
      [utf16 "summarizeText", utf16 "translateText", utf16 "convertToTable"]
      (jsStr (utf16 "some text"))
    have hlen := h.2.2.2.1 1
      { blockId := utf16 "translateText", input := utf16 "first",
        run := { result := .error (newError (utf16 "boom")),
                 events := [.fetch { authorization := utf16 "Bearer sk-key",
                                     system := ((getBlock blocks (utf16 "translateText")).map
                                       Block.prompt).getD [],
                                     user := utf16 "first" }] } }
      rfl rfl
    ⟨rfl, hlen, h.2.1.trans hlen⟩

/-! ## The output sanitizer -/

/-- C7, as stated, fails: a fenced JSON answer is unwrapped one level per call, so
`sanitizeOutput` applied twice gives `hi` where one application gives the JSON
text. -/
theorem sanitizeOutput_not_idempotent :
    ForEveryHost fun host =>
      sanitizeOutput host (jsStr (utf16 "```json\n\x7b\"text\":\"hi\"\x7d\n```"))
          = .ok (utf16 "\x7b\"text\":\"hi\"\x7d") ∧
        sanitizeOutput host (jsStr (utf16 "\x7b\"text\":\"hi\"\x7d")) = .ok (utf16 "hi") ∧
        utf16 "hi" ≠ utf16 "\x7b\"text\":\"hi\"\x7d" :=
  fun _ => ⟨rfl, rfl, by decide⟩

/-- C7, amended: when `sanitizeOutput` returns a text that is not itself a
parseable JSON object or array, sanitizing that text again returns it unchanged. -/
theorem sanitizeOutput_idempotent_of_not_json (host : Host) (x y : JsString)
    (hx : sanitizeOutput host (jsStr x) = .ok y)
    (hy : looksLikeJson y = false ∨ jsonParse y = none) :
    sanitizeOutput host (jsStr y) = .ok y := by
  obtain ⟨ht, hf⟩ := sanitizeOutput_clean host x y hx
  cases y with
  | nil => rfl
  | cons c cs =>
    show sanitizeOutput host (some (.str (c :: cs))) = _
    rw [sanitizeOutput_cons, ht, unwrapJson_of_not_json host _ hy]
    show Except.ok (stripFences (c :: cs)) = _
    rw [stripFences_of_clean _ ht hf]

/-- C7, amended, at a fenced plain text. -/
theorem sanitizeOutput_idempotent_of_not_json_witness :
    ForEveryHost fun host =>
      sanitizeOutput host (jsStr (utf16 "  ```text\nhello\n```  ")) = .ok (utf16 "text\nhello") ∧
        sanitizeOutput host (jsStr (utf16 "text\nhello")) = .ok (utf16 "text\nhello") :=
  fun host => ⟨rfl,
    sanitizeOutput_idempotent_of_not_json host (utf16 "  ```text\nhello\n```  ")
      (utf16 "text\nhello") rfl (Or.inl rfl)⟩

/-- C8, as stated, fails: the field `text` is present with the empty string as
its value, yet the sanitizer returns the value of `result`. -/
theorem sanitizeOutput_skips_present_empty_field :
    ForEveryHost fun host =>
      jsonParse (trim (utf16 "\x7b\"text\":\"\",\"result\":\"hello\"\x7d"))
          = some (.obj [(utf16 "text", .str []), (utf16 "result", .str (utf16 "hello"))]) ∧
        firstPresent (.obj [(utf16 "text", .str []), (utf16 "result", .str (utf16 "hello"))])
          = some (.str []) ∧
        sanitizeOutput host (jsStr (utf16 "\x7b\"text\":\"\",\"result\":\"hello\"\x7d"))
          = .ok (utf16 "hello") ∧
        utf16 "hello" ≠ [] :=
  fun _ => ⟨rfl, rfl, rfl, by decide⟩

theorem truthy_some (host : Host) (p : JsValue) (h : truthy host p = true) :
    ∃ b, p = some b := by
  cases p with
  | none => simp [truthy] at h
  | some b => exact ⟨b, rfl⟩

theorem unwrapParsed_eq (host : Host) (v : JVal) (hv : v ≠ .null) :
    unwrapParsed host v =
      if truthy host (getProperty v (utf16 "text")) then getProperty v (utf16 "text")
      else if truthy host (getProperty v (utf16 "content")) then
        getProperty v (utf16 "content")
      else if truthy host (getProperty v (utf16 "output")) then
        getProperty v (utf16 "output")
      else if truthy host (getProperty v (utf16 "result")) then
        getProperty v (utf16 "result")
      else joinOrStringify host v := by
  cases v <;> first | exact absurd rfl hv | rfl

theorem unwrapParsed_of_firstTruthy (host : Host) (v w : JVal) (hv : v ≠ .null)
    (h : firstTruthy host v = some w) : unwrapParsed host v = some w := by
  rw [unwrapParsed_eq host v hv]
  unfold firstTruthy unwrapFields at h
  simp only [List.findSome?] at h
  generalize getProperty v (utf16 "text") = p1 at h ⊢
  generalize getProperty v (utf16 "content") = p2 at h ⊢
  generalize getProperty v (utf16 "output") = p3 at h ⊢
  generalize getProperty v (utf16 "result") = p4 at h ⊢
  cases h1 : truthy host p1 with
  | true =>
    obtain ⟨b, rfl⟩ := truthy_some host p1 h1
    simpa [h1] using h
  | false =>
    cases h2 : truthy host p2 with
    | true =>
      obtain ⟨b, rfl⟩ := truthy_some host p2 h2
      simpa [h1, h2] using h
    | false =>
      cases h3 : truthy host p3 with
      | true =>
        obtain ⟨b, rfl⟩ := truthy_some host p3 h3
        simpa [h1, h2, h3] using h
      | false =>
        cases h4 : truthy host p4 with
        | true =>
          obtain ⟨b, rfl⟩ := truthy_some host p4 h4
          simpa [h1, h2, h3, h4] using h
        | false => simp [h1, h2, h3, h4] at h

theorem unwrapParsed_of_firstTruthy_none (host : Host) (v : JVal) (hv : v ≠ .null)
    (h : firstTruthy host v = none) : unwrapParsed host v = joinOrStringify host v := by
  rw [unwrapParsed_eq host v hv]
  have hall : ∀ f ∈ unwrapFields, truthy host (getProperty v f) = false := by
    intro f hf
    unfold firstTruthy at h
    rw [List.findSome?_eq_none_iff] at h
    have := h f hf
    cases ht : truthy host (getProperty v f) with
    | false => rfl
    | true =>
      rw [ht] at this
      simp only [if_true] at this
      rw [this] at ht
      simp [truthy] at ht
  rw [hall (utf16 "text") (by simp [unwrapFields]),
    hall (utf16 "content") (by simp [unwrapFields]),
    hall (utf16 "output") (by simp [unwrapFields]),
    hall (utf16 "result") (by simp [unwrapFields])]
  rfl

/-- C8, amended: on a text whose trimmed form parses as a JSON object or array,
the sanitizer takes the first of `text`, `content`, `output`, `result` whose
value is truthy, and when that value is a string returns it with the fences
stripped; when none is truthy it joins an array with line feeds and
pretty-prints an object, again with the fences stripped. -/
theorem sanitizeOutput_unwraps_first_truthy (host : Host) (x : JsString) (v : JVal)
    (hlook : looksLikeJson (trim x) = true) (hparse : jsonParse (trim x) = some v)
    (hkind : (∃ xs, v = .arr xs) ∨ (∃ props, v = .obj props)) :
    (∀ s, firstTruthy host v = some (.str s) →
        sanitizeOutput host (jsStr x) = .ok (stripFences s)) ∧
      (firstTruthy host v = none → ∀ xs j, v = .arr xs → arrayJoin host [10] xs = some j →
        sanitizeOutput host (jsStr x) = .ok (stripFences j)) ∧
      (firstTruthy host v = none → ∀ props, v = .obj props →
        sanitizeOutput host (jsStr x) = .ok (stripFences (jsonStringify host v))) := by
  have hv : v ≠ .null := by
    rcases hkind with ⟨xs, rfl⟩ | ⟨props, rfl⟩ <;> simp
  have hx : ∃ c cs, x = c :: cs := by
    cases x with
    | nil => simp [trim_nil, looksLikeJson, startsWith] at hlook
    | cons c cs => exact ⟨c, cs, rfl⟩
  obtain ⟨c, cs, rfl⟩ := hx
  have hstep : ∀ w, unwrapParsed host v = some w →
      unwrapJson host (trim (c :: cs)) = w := by
    intro w hw
    unfold unwrapJson
    simp [hlook, hparse, hw]
  refine ⟨?_, ?_, ?_⟩
  · intro s hs
    show sanitizeOutput host (some (.str (c :: cs))) = _
    rw [sanitizeOutput_cons, hstep _ (unwrapParsed_of_firstTruthy host v _ hv hs)]
  · intro hnone xs j hxs hj
    show sanitizeOutput host (some (.str (c :: cs))) = _
    have hw : unwrapParsed host v = some (.str j) := by
      rw [unwrapParsed_of_firstTruthy_none host v hv hnone, hxs]
      simp [joinOrStringify, hj]
    rw [sanitizeOutput_cons, hstep _ hw]
  · intro hnone props hprops
    show sanitizeOutput host (some (.str (c :: cs))) = _
    have hw : unwrapParsed host v = some (.str (jsonStringify host v)) := by
      rw [unwrapParsed_of_firstTruthy_none host v hv hnone, hprops]
      rfl
    rw [sanitizeOutput_cons, hstep _ hw]

/-- C8, amended, at the examples of the specification: the text
`{"result":"hello"}` gives `hello`, `["a","b"]` gives the two lines `a`, `b`, and
an object without any of the four fields is pretty-printed. -/
theorem sanitizeOutput_unwraps_first_truthy_witness :
    ForEveryHost fun host =>
      sanitizeOutput host (jsStr (utf16 "\x7b\"result\":\"hello\"\x7d")) = .ok (utf16 "hello") ∧
        sanitizeOutput host (jsStr (utf16 "[\"a\",\"b\"]")) = .ok (utf16 "a\nb") ∧
        sanitizeOutput host (jsStr (utf16 "\x7b\"a\":\"b\"\x7d"))
          = .ok (utf16 "\x7b\n  \"a\": \"b\"\n\x7d") :=
  fun host =>
    ⟨(sanitizeOutput_unwraps_first_truthy host (utf16 "\x7b\"result\":\"hello\"\x7d")
        (.obj [(utf16 "result", .str (utf16 "hello"))]) rfl rfl
        (Or.inr ⟨_, rfl⟩)).1 (utf16 "hello") rfl,
      (sanitizeOutput_unwraps_first_truthy host (utf16 "[\"a\",\"b\"]")
        (.arr [.str (utf16 "a"), .str (utf16 "b")]) rfl rfl
        (Or.inl ⟨_, rfl⟩)).2.1 rfl _ (utf16 "a\nb") rfl rfl,
      ((sanitizeOutput_unwraps_first_truthy host (utf16 "\x7b\"a\":\"b\"\x7d")
        (.obj [(utf16 "a", .str (utf16 "b"))]) rfl rfl
        (Or.inr ⟨_, rfl⟩)).2.2 rfl _ rfl).trans
        (congrArg Except.ok
          ((congrArg stripFences
            (rfl : jsonStringify host (.obj [(utf16 "a", .str (utf16 "b"))])
              = utf16 "\x7b\n  \"a\": \"b\"\n\x7d")).trans
            (rfl : stripFences (utf16 "\x7b\n  \"a\": \"b\"\n\x7d")
              = utf16 "\x7b\n  \"a\": \"b\"\n\x7d")))⟩

/-- C9: a text whose trimmed form is not a parseable JSON object or array and
that holds no three backticks in a row is returned trimmed, without an error. -/
theorem sanitizeOutput_keeps_non_json (host : Host) (x : JsString)
    (hjson : looksLikeJson (trim x) = false ∨ jsonParse (trim x) = none)
    (hfence : ¬ fence <:+: x) :
    sanitizeOutput host (jsStr x) = .ok (trim x) := by
  cases x with
  | nil => rfl
  | cons c cs =>
    show sanitizeOutput host (some (.str (c :: cs))) = _
    rw [sanitizeOutput_cons, unwrapJson_of_not_json host _ hjson]
    show Except.ok (stripFences (trim (c :: cs))) = _
    rw [stripFences_of_clean _ (trim_trim _) (no_fence_trim _ hfence)]

/-- C9 at the examples: `not json` comes back unchanged, and so does a text in
braces that does not parse. -/
theorem sanitizeOutput_keeps_non_json_witness :
    ForEveryHost fun host =>
      sanitizeOutput host (jsStr (utf16 " not json ")) = .ok (utf16 "not json") ∧
        sanitizeOutput host (jsStr (utf16 "\x7bnot json\x7d")) = .ok (utf16 "\x7bnot json\x7d") :=
  fun host =>
    ⟨sanitizeOutput_keeps_non_json host (utf16 " not json ") (Or.inl rfl) (by decide),
      sanitizeOutput_keeps_non_json host (utf16 "\x7bnot json\x7d") (Or.inr rfl) (by decide)⟩

/-- C10 fails on the code: a truthy field that is not a string reaches
`sanitized.replace`, and `sanitizeOutput` throws a `TypeError` instead of
returning a text. -/
theorem sanitizeOutput_throws_on_non_string_field :
    ForEveryHost fun host =>
      sanitizeOutput host (jsStr (utf16 "\x7b\"text\":true\x7d"))
          = .error (typeError host .notAFunction) ∧
        sanitizeOutput host (jsStr (utf16 "\x7b\"result\":\x7b\"a\":\"b\"\x7d\x7d"))
          = .error (typeError host .notAFunction) :=
  fun _ => ⟨rfl, rfl⟩

/-! ## Fence stripping -/

/-- At a match the replace deletes the pattern and the white space behind it. -/
theorem removeAll_match (pat : JsString) (hp : pat ≠ []) (rest : JsString) :
    removeAll pat (pat ++ rest) = removeAll pat (rest.dropWhile isWhiteSpace) := by
  cases hpat : pat with
  | nil => exact absurd hpat hp
  | cons p ps =>
    have hpre : (p :: ps).isPrefixOf ((p :: ps) ++ rest) = true :=
      List.isPrefixOf_iff_prefix.mpr (List.prefix_append _ _)
    have h := removeAll_cons (p :: ps) (by simp) p (ps ++ rest)
    rw [List.cons_append, h, ← List.cons_append, hpre]
    simp

/-- A text without three backticks in a row, followed by a line feed, is copied
by a replace whose pattern starts with three backticks. -/
theorem removeAll_copy (pat : JsString) (hpre : fence <+: pat) (rest : JsString) :
    ∀ content : JsString, ¬ fence <:+: content →
      removeAll pat (content ++ 10 :: rest) = content ++ removeAll pat (10 :: rest) := by
  have hp : pat ≠ [] := by
    rintro rfl
    have := hpre.length_le
    simp [fence] at this
  intro content
  induction content with
  | nil => intro _; rfl
  | cons a as ih =>
    intro hno
    have hno' : ¬ fence <:+: as := fun hc => hno (hc.trans (List.suffix_cons a as).isInfix)
    have hmiss : pat.isPrefixOf (a :: (as ++ 10 :: rest)) = false := by
      cases hpat : pat.isPrefixOf (a :: (as ++ 10 :: rest)) with
      | false => rfl
      | true =>
        exfalso
        obtain ⟨t, ht⟩ := hpre.trans (List.isPrefixOf_iff_prefix.mp hpat)
        match as, ht, hno with
        | [], ht, _ => simp [fence] at ht
        | [b], ht, _ => simp [fence] at ht
        | b :: b' :: as', ht, hno =>
          simp only [fence, List.cons_append, List.nil_append, List.cons.injEq] at ht
          obtain ⟨rfl, rfl, rfl, _⟩ := ht
          exact hno ⟨[], as', rfl⟩
    rw [List.cons_append, removeAll_cons pat hp, hmiss, ih hno']
    rfl

/-- What is left of a fenced block once the opening marker and the white space
behind it are gone: the `json` replace changes nothing, and the bare replace and
the final trim leave the trimmed content. -/
theorem strip_closing_fence (content : JsString) (hno : ¬ fence <:+: content) :
    removeAll fenceJson ((content ++ 10 :: fence).dropWhile isWhiteSpace)
        = (content ++ 10 :: fence).dropWhile isWhiteSpace ∧
      trim (removeAll fence ((content ++ 10 :: fence).dropWhile isWhiteSpace))
        = trim content := by
  rw [List.dropWhile_append]
  cases hc : content.dropWhile isWhiteSpace with
  | nil =>
    have htrim : trim content = [] := by
      unfold trim
      rw [hc]
      rfl
    rw [htrim]
    exact ⟨rfl, rfl⟩
  | cons a as =>
    have hno1 : ¬ fence <:+: (a :: as) := by
      rw [← hc]
      exact fun h => hno (h.trans (List.dropWhile_suffix isWhiteSpace).isInfix)
    have hself : (a :: as).dropWhile isWhiteSpace = a :: as := by
      rw [← hc]
      exact List.dropWhile_idempotent _ _
    simp only [List.isEmpty_cons, Bool.false_eq_true, if_false]
    constructor
    · rw [removeAll_copy fenceJson ⟨[106, 115, 111, 110], rfl⟩ fence (a :: as) hno1]
      rfl
    · rw [removeAll_copy fence (List.prefix_refl _) fence (a :: as) hno1]
      have h10 : removeAll fence (10 :: fence) = [10] := rfl
      rw [h10]
      unfold trim
      rw [List.dropWhile_append, hself, hc]
      simp only [List.isEmpty_cons, Bool.false_eq_true, if_false]
      exact List.rdropWhile_concat_pos _ _ 10 rfl

theorem trim_fenced (tag content : JsString) :
    trim (fenced tag content) = fenced tag content := by
  have hhead : (fenced tag content).dropWhile isWhiteSpace = fenced tag content := by
    unfold fenced fence
    simp [List.dropWhile, isWhiteSpace]
  have hlast : fenced tag content
      = (fence ++ tag ++ 10 :: (content ++ [10, 96, 96])) ++ [96] := by
    unfold fenced fence
    simp
  unfold trim
  rw [hhead, hlast]
  exact List.rdropWhile_concat_neg _ _ 96 (by decide)

/-- C11, as stated, fails: a block fenced with the language tag `python` keeps
the tag in front of its content. -/
theorem sanitizeOutput_keeps_other_language_tag :
    ForEveryHost fun host =>
      sanitizeOutput host (jsStr (utf16 "```python\nprint(1)\n```"))
          = .ok (utf16 "python\nprint(1)") ∧
        utf16 "python\nprint(1)" ≠ utf16 "print(1)" :=
  fun _ => ⟨rfl, by decide⟩

/-- A pattern without line feed starts a tag followed by a line feed exactly
when it starts the tag. -/
theorem isPrefixOf_before_line_feed (pat : JsString) (hp : ∀ c ∈ pat, c ≠ 10)
    (rest : JsString) :
    ∀ tag : JsString, pat.isPrefixOf (tag ++ 10 :: rest) = pat.isPrefixOf tag := by
  induction pat with
  | nil => intro tag; simp [List.isPrefixOf]
  | cons a as ih =>
    intro tag
    have ha : a ≠ 10 := hp a (List.mem_cons_self a as)
    cases tag with
    | nil => simp [List.isPrefixOf, ha]
    | cons t ts =>
      have h := ih (fun c hc => hp c (List.mem_cons_of_mem a hc)) ts
      show (a == t && as.isPrefixOf (ts ++ 10 :: rest)) = (a == t && as.isPrefixOf ts)
      rw [h]

/-- A tag without backtick, a line feed and a content without three backticks in
a row: no three backticks in a row. -/
theorem no_fence_in_tagged (content : JsString) (hno : ¬ fence <:+: content) :
    ∀ tag : JsString, (∀ c ∈ tag, c ≠ 96) → ¬ fence <:+: tag ++ 10 :: content := by
  have hhead : ∀ (c : Nat) (s : JsString), c ≠ 96 → ¬ fence <:+: s → ¬ fence <:+: c :: s := by
    intro c s hc hs h
    rcases List.infix_cons_iff.mp h with hpre | hin
    · obtain ⟨t, ht⟩ := hpre
      simp only [fence, List.cons_append, List.cons.injEq] at ht
      exact hc ht.1.symm
    · exact hs hin
  intro tag
  induction tag with
  | nil => intro _; exact hhead 10 content (by decide) hno
  | cons t ts ih =>
    intro htag
    exact hhead t _ (htag t (List.mem_cons_self t ts))
      (ih fun c hc => htag c (List.mem_cons_of_mem t hc))

/-- The `json` replace changes nothing in a fenced block whose tag holds no
backtick and does not begin with `json`. -/
theorem removeAll_fenceJson_other_tag (tag content : JsString)
    (htag : ∀ c ∈ tag, c ≠ 96) (hno : ¬ fence <:+: content)
    (hother : (utf16 "json").isPrefixOf tag = false) :
    removeAll fenceJson (fenced tag content) = fenced tag content := by
  have hf : fenceJson ≠ [] := by simp [fenceJson]
  have hbody := no_fence_in_tagged content hno tag htag
  have hshape : fenced tag content
      = 96 :: 96 :: 96 :: (tag ++ 10 :: (content ++ 10 :: fence)) := by
    unfold fenced fence
    simp
  have hblock : tag ++ 10 :: (content ++ 10 :: fence)
      = (tag ++ 10 :: content) ++ 10 :: fence := by simp
  have e1 : fenceJson.isPrefixOf (96 :: 96 :: 96 :: (tag ++ 10 :: (content ++ 10 :: fence)))
      = false := by
    have h := isPrefixOf_before_line_feed (utf16 "json") (by decide)
      (content ++ 10 :: fence) tag
    rw [hother] at h
    simpa [fenceJson, List.isPrefixOf] using h
  have hnext : ∀ rest : JsString, ∃ c cs, c ≠ 96 ∧ tag ++ 10 :: rest = c :: cs := by
    intro rest
    cases tag with
    | nil => exact ⟨10, rest, by decide, rfl⟩
    | cons t ts => exact ⟨t, ts ++ 10 :: rest, htag t (List.mem_cons_self t ts), rfl⟩
  obtain ⟨c, cs, hc, hcs⟩ := hnext (content ++ 10 :: fence)
  have hc' : (96 == c) = false := by
    simpa using fun h : 96 = c => hc h.symm
  have e2 : fenceJson.isPrefixOf (96 :: 96 :: (tag ++ 10 :: (content ++ 10 :: fence)))
      = false := by
    rw [hcs]
    simp [fenceJson, List.isPrefixOf, hc']
  have e3 : fenceJson.isPrefixOf (96 :: (tag ++ 10 :: (content ++ 10 :: fence)))
      = false := by
    rw [hcs]
    simp [fenceJson, List.isPrefixOf, hc']
  rw [hshape, removeAll_cons fenceJson hf, e1, removeAll_cons fenceJson hf, e2,
    removeAll_cons fenceJson hf, e3]
  simp only [Bool.false_eq_true, if_false]
  rw [hblock, removeAll_copy fenceJson ⟨[106, 115, 111, 110], rfl⟩ fence _ hbody]
  rfl

/-- The two replaces and the trim on a fenced block whose tag holds no backtick
and does not begin with `json`: the tag stays. -/
theorem stripFences_other_tag (tag content : JsString)
    (htag : ∀ c ∈ tag, c ≠ 96) (hno : ¬ fence <:+: content)
    (hother : (utf16 "json").isPrefixOf tag = false) :
    stripFences (fenced tag content) = trim (tag ++ 10 :: content) := by
  have hbody := no_fence_in_tagged content hno tag htag
  unfold stripFences
  rw [removeAll_fenceJson_other_tag tag content htag hno hother]
  have hshape : fenced tag content = fence ++ ((tag ++ 10 :: content) ++ 10 :: fence) := by
    unfold fenced
    simp
  rw [hshape, removeAll_match fence (by simp [fence])]
  exact (strip_closing_fence _ hbody).2

/-- The two replaces and the trim on a fenced block whose tag begins with
`json` and holds no backtick: the remainder of the tag stays. -/
theorem stripFences_json_tag (rest content : JsString)
    (hrest : ∀ c ∈ rest, c ≠ 96) (hno : ¬ fence <:+: content) :
    stripFences (fenced (utf16 "json" ++ rest) content) = trim (rest ++ 10 :: content) := by
  have hbody := no_fence_in_tagged content hno rest hrest
  obtain ⟨hjson, hbare⟩ := strip_closing_fence _ hbody
  unfold stripFences
  have hshape : fenced (utf16 "json" ++ rest) content
      = fenceJson ++ ((rest ++ 10 :: content) ++ 10 :: fence) := by
    have hj : fence ++ (utf16 "json" ++ rest) = fenceJson ++ rest := rfl
    unfold fenced
    rw [hj]
    simp
  rw [hshape, removeAll_match fenceJson (by simp [fenceJson]), hjson]
  exact hbare

/-- The steps of `sanitizeOutput` before the replaces leave a fenced block as it
is. -/
theorem sanitizeOutput_fenced (host : Host) (tag content : JsString) :
    sanitizeOutput host (jsStr (fenced tag content))
      = .ok (stripFences (fenced tag content)) := by
  have hlook : looksLikeJson (fenced tag content) = false := by
    unfold fenced fence looksLikeJson startsWith
    simp [List.isPrefixOf]
  have hx : ∃ c cs, fenced tag content = c :: cs := ⟨96, _, rfl⟩
  obtain ⟨c, cs, hcs⟩ := hx
  show sanitizeOutput host (some (.str (fenced tag content))) = _
  rw [hcs, sanitizeOutput_cons, ← hcs, trim_fenced tag content,
    unwrapJson_of_not_json host _ (Or.inl hlook)]

/-- C11, amended: for a text wrapped in a fenced code block (three backticks, a
tag without backtick, line feed, a content without three backticks in a row,
line feed, three backticks) `sanitizeOutput` removes the two markers and, when
the tag begins with `json`, these four letters. With a bare marker or the tag
`json` the result is exactly the trimmed content; with a tag that begins with
`json` it is the trimmed text of the remainder of the tag, a line feed and the
content; with any other tag it is the trimmed text of the tag, a line feed and
the content. -/
theorem sanitizeOutput_strips_fence (host : Host) (tag content : JsString)
    (htag : ∀ c ∈ tag, c ≠ 96) (hno : ¬ fence <:+: content) :
    (tag = [] ∨ tag = utf16 "json" →
        sanitizeOutput host (jsStr (fenced tag content)) = .ok (trim content)) ∧
      (∀ rest, tag = utf16 "json" ++ rest →
        sanitizeOutput host (jsStr (fenced tag content))
          = .ok (trim (rest ++ 10 :: content))) ∧
      (¬ utf16 "json" <+: tag →
        sanitizeOutput host (jsStr (fenced tag content))
          = .ok (trim (tag ++ 10 :: content))) := by
  have hlf : trim (10 :: content) = trim content := rfl
  have hjson : ∀ rest, tag = utf16 "json" ++ rest →
      sanitizeOutput host (jsStr (fenced tag content))
        = .ok (trim (rest ++ 10 :: content)) := by
    rintro rest rfl
    rw [sanitizeOutput_fenced, stripFences_json_tag rest content
      (fun c hc => htag c (List.mem_append_right _ hc)) hno]
  have hother : ¬ utf16 "json" <+: tag →
      sanitizeOutput host (jsStr (fenced tag content))
        = .ok (trim (tag ++ 10 :: content)) := by
    intro h
    have hb : (utf16 "json").isPrefixOf tag = false := by
      cases hp : (utf16 "json").isPrefixOf tag with
      | false => rfl
      | true => exact absurd (List.isPrefixOf_iff_prefix.mp hp) h
    rw [sanitizeOutput_fenced, stripFences_other_tag tag content htag hno hb]
  refine ⟨?_, hjson, hother⟩
  rintro (rfl | rfl)
  · rw [hother (by decide)]
    exact congrArg Except.ok hlf
  · rw [hjson [] rfl]
    exact congrArg Except.ok hlf

/-- C11, amended, on a bare fence, on a `json` fence, on a `jsonc` fence and on
a `python` fence. -/
theorem sanitizeOutput_strips_fence_witness :
    ForEveryHost fun host =>
      sanitizeOutput host (jsStr (fenced [] (utf16 "  plain text "))) = .ok (utf16 "plain text") ∧
      sanitizeOutput host (jsStr (fenced (utf16 "json") (utf16 "\x7b\"text\":\"hi\"\x7d")))
        = .ok (utf16 "\x7b\"text\":\"hi\"\x7d") ∧
      sanitizeOutput host (jsStr (fenced (utf16 "jsonc") (utf16 "x = 1")))
        = .ok (utf16 "c\nx = 1") ∧
      sanitizeOutput host (jsStr (fenced (utf16 "python") (utf16 "print(1)")))
        = .ok (utf16 "python\nprint(1)") :=
  fun host =>
    ⟨(sanitizeOutput_strips_fence host [] (utf16 "  plain text ") (by decide)
        (by decide)).1 (Or.inl rfl),
      (sanitizeOutput_strips_fence host (utf16 "json") (utf16 "\x7b\"text\":\"hi\"\x7d")
        (by decide) (by decide)).1 (Or.inr rfl),
      (sanitizeOutput_strips_fence host (utf16 "jsonc") (utf16 "x = 1") (by decide)
        (by decide)).2.1 (utf16 "c") rfl,
      (sanitizeOutput_strips_fence host (utf16 "python") (utf16 "print(1)") (by decide)
        (by decide)).2.2 (by decide)⟩

/-- C20: a text `sanitizeOutput` returns holds no three backticks in a row and
neither starts nor ends with white space. -/
theorem sanitizeOutput_result_clean (host : Host) (x y : JsString)
    (h : sanitizeOutput host (jsStr x) = .ok y) :
    ¬ fence <:+: y ∧ (∀ c, y.head? = some c → isWhiteSpace c = false) ∧
      (∀ c, y.getLast? = some c → isWhiteSpace c = false) := by
  obtain ⟨ht, hf⟩ := sanitizeOutput_clean host x y h
  refine ⟨hf, ?_, ?_⟩
  · have hpre : trim y <+: y.dropWhile isWhiteSpace := List.rdropWhile_prefix _ _
    have hsuf : y.dropWhile isWhiteSpace <:+ y := List.dropWhile_suffix _
    have hd : y.dropWhile isWhiteSpace = y := by
      apply hsuf.eq_of_length_le
      have := hpre.length_le
      rw [ht] at this
      exact this
    intro c hc
    cases y with
    | nil => cases hc
    | cons a as =>
      simp only [List.head?_cons, Option.some.injEq] at hc
      subst hc
      cases hw : isWhiteSpace a with
      | false => rfl
      | true =>
        simp only [List.dropWhile, hw] at hd
        have := (List.dropWhile_suffix isWhiteSpace (l := as)).length_le
        rw [hd] at this
        simp at this
  · have hd : (trim y).rdropWhile isWhiteSpace = trim y := by
      unfold trim
      exact List.rdropWhile_idempotent _ _
    rw [ht] at hd
    intro c hc
    have hne : y ≠ [] := by
      rintro rfl
      cases hc
    have := List.rdropWhile_eq_self_iff.mp hd hne
    rw [List.getLast?_eq_getLast _ hne] at hc
    cases hc
    simpa using this

/-- C20 on a text in which the `json` replace splices three backticks, which the
bare replace then removes. -/
theorem sanitizeOutput_result_clean_witness :
    ForEveryHost fun host =>
      sanitizeOutput host (jsStr (utf16 " a`````json`b ")) = .ok (utf16 "ab") ∧
        ¬ fence <:+: utf16 "ab" ∧ (∀ c, (utf16 "ab").head? = some c → isWhiteSpace c = false) ∧
        (∀ c, (utf16 "ab").getLast? = some c → isWhiteSpace c = false) :=
  fun host =>
    ⟨rfl, sanitizeOutput_result_clean host (utf16 " a`````json`b ") (utf16 "ab") rfl⟩

/-! ## The input validator -/

theorem trim_of_all_whiteSpace (s : JsString) (h : s.all isWhiteSpace = true) : trim s = [] := by
  unfold trim
  have : s.dropWhile isWhiteSpace = [] := by
    rw [List.dropWhile_eq_nil_iff]
    intro c hc
    exact List.all_eq_true.mp h c hc
  rw [this]
  rfl

theorem trim_of_no_whiteSpace (s : JsString) (h : ∀ c ∈ s, isWhiteSpace c = false) :
    trim s = s := by
  unfold trim
  have h1 : s.dropWhile isWhiteSpace = s := by
    cases s with
    | nil => rfl
    | cons c cs => simp [List.dropWhile, h c (List.mem_cons_self _ _)]
  rw [h1, List.rdropWhile_eq_self_iff]
  intro hne
  simpa using h _ (List.getLast_mem hne)

/-- C12: on `null`, on any value that is not a string, on the empty string and on
a string of white space only, `validateInput` returns `valid = false` with the
error `Please enter some text to transform.` and no text. -/
theorem validateInput_rejects_blank (host : Host) (input : JsValue)
    (h : (∀ t, input ≠ jsStr t) ∨ ∃ t, input = jsStr t ∧ t.all isWhiteSpace = true) :
    validateInput host input =
      { valid := false, text := none,
        error := some (utf16 "Please enter some text to transform.") } := by
  rcases h with h | ⟨t, rfl, ht⟩
  · unfold validateInput
    split
    · rename_i t
      exact absurd rfl (h t)
    · rfl
  · show validateInput host (some (.str t)) = _
    unfold validateInput
    simp only [trim_of_all_whiteSpace t ht, List.length_nil]
    split <;> rfl

/-- C12 on `null`, on `undefined`, on the empty string and on a string of two
spaces and a line feed. -/
theorem validateInput_rejects_blank_witness :
    ForEveryHost fun host =>
      (validateInput host (some .null)).valid = false ∧
      (validateInput host none).error = some (utf16 "Please enter some text to transform.") ∧
      (validateInput host (jsStr [])).valid = false ∧
      validateInput host (jsStr (utf16 "  \n")) =
        { valid := false, text := none,
          error := some (utf16 "Please enter some text to transform.") } :=
  fun host =>
    ⟨congrArg ValidationResult.valid
        (validateInput_rejects_blank host (some .null) (Or.inl (fun t h => by cases h))),
      congrArg ValidationResult.error
        (validateInput_rejects_blank host none (Or.inl (fun t h => by cases h))),
      congrArg ValidationResult.valid
        (validateInput_rejects_blank host (jsStr []) (Or.inr ⟨[], rfl, rfl⟩)),
      validateInput_rejects_blank host (jsStr (utf16 "  \n")) (Or.inr ⟨_, rfl, rfl⟩)⟩

/-- C13: for a string whose trimmed form is not empty, `validateInput` returns
`valid = true` exactly when the trimmed form has at most `MAX_INPUT_LENGTH` =
10000 code units, and then its text is the trimmed string; when the trimmed form
is longer it returns `valid = false` with the message that names the maximum
as the locale writes it. -/
theorem validateInput_length_bound (host : Host) (t : JsString) (hne : trim t ≠ []) :
    MAX_INPUT_LENGTH = 10000 ∧
    ((validateInput host (jsStr t)).valid = true ↔ (trim t).length ≤ MAX_INPUT_LENGTH) ∧
    ((trim t).length ≤ MAX_INPUT_LENGTH →
      validateInput host (jsStr t) = { valid := true, text := some (trim t), error := none }) ∧
    (MAX_INPUT_LENGTH < (trim t).length →
      validateInput host (jsStr t) =
        { valid := false, text := none,
          error := some (utf16 "Input text exceeds maximum length (" ++ host.maxLengthText
            ++ utf16 " characters).") }) := by
  have htne : t ≠ [] := by
    rintro rfl
    exact hne rfl
  have hlen : (trim t).length ≠ 0 := fun h => hne (List.length_eq_zero.mp h)
  have hle : (trim t).length ≤ MAX_INPUT_LENGTH →
      validateInput host (jsStr t) = { valid := true, text := some (trim t), error := none } := by
    intro h
    show validateInput host (some (.str t)) = _
    unfold validateInput
    simp [htne, hlen, Nat.not_lt.mpr h]
  have hgt : MAX_INPUT_LENGTH < (trim t).length →
      validateInput host (jsStr t) =
        { valid := false, text := none,
          error := some (utf16 "Input text exceeds maximum length (" ++ host.maxLengthText
            ++ utf16 " characters).") } := by
    intro h
    show validateInput host (some (.str t)) = _
    unfold validateInput
    simp [htne, hlen, h]
  refine ⟨rfl, ⟨?_, ?_⟩, hle, hgt⟩
  · intro hv
    by_contra hcon
    rw [hgt (Nat.not_le.mp hcon)] at hv
    cases hv
  · intro h
    rw [hle h]

/-- C13 at the bound: a string of 10000 letters passes, one of 10001 fails. -/
theorem validateInput_length_bound_witness :
    ForEveryHost fun host =>
      (validateInput host (jsStr (List.replicate 10000 97))).valid = true ∧
      (validateInput host (jsStr (List.replicate 10001 97))).valid = false :=
  fun host =>
    have hmem : ∀ n c, c ∈ List.replicate n 97 → isWhiteSpace c = false := by
      intro n c hc
      rw [List.eq_of_mem_replicate hc]
      rfl
    have htrim : ∀ n, trim (List.replicate n 97) = List.replicate n 97 := fun n =>
      trim_of_no_whiteSpace _ (hmem n)
    have hne : ∀ n, 0 < n → trim (List.replicate n 97) ≠ [] := by
      intro n hn h
      have := congrArg List.length h
      rw [htrim, List.length_replicate] at this
      simp at this
      omega
    ⟨((validateInput_length_bound host (List.replicate 10000 97)
        (hne 10000 (by decide))).2.1).mpr (by
          rw [htrim, List.length_replicate]
          decide),
      congrArg ValidationResult.valid
        ((validateInput_length_bound host (List.replicate 10001 97)
          (hne 10001 (by decide))).2.2.2 (by
            rw [htrim, List.length_replicate]
            decide))⟩

/-! ## The block registry -/

theorem falsy_eq_true_iff (field : Option JsString) :
    falsy field = true ↔ field = none ∨ field = some [] := by
  cases field with
  | none => simp [falsy]
  | some s => cases s <;> simp [falsy]

theorem registerBlock_of_incomplete (registry : List Block) (block : BlockObject)
    (h : block.incomplete) :
    registerBlock registry block =
      { result := .error
          (newError (utf16 "Block must have id, name, description, and prompt properties")),
        registry := registry } := by
  obtain ⟨field, hmem, hfield⟩ := h
  have hf := (falsy_eq_true_iff field).mpr hfield
  unfold registerBlock
  simp only [List.mem_cons, List.mem_singleton, List.not_mem_nil, or_false] at hmem
  rcases hmem with rfl | rfl | rfl | rfl <;> simp [hf]

theorem registerBlock_of_complete (registry : List Block) (block : BlockObject)
    (h : block.complete) :
    registerBlock registry block =
      { result := .ok (), registry := putEntry registry block.entry } := by
  have hf : ∀ field ∈ [block.id, block.name, block.description, block.prompt],
      falsy field = false := by
    intro field hmem
    obtain ⟨s, rfl, hs⟩ := h field hmem
    cases s with
    | nil => exact absurd rfl hs
    | cons c cs => rfl
  unfold registerBlock
  simp [hf block.id (by simp), hf block.name (by simp), hf block.description (by simp),
    hf block.prompt (by simp)]

theorem registerBlock_cases (registry : List Block) (block : BlockObject) :
    (block.incomplete ∧ registerBlock registry block =
      { result := .error
          (newError (utf16 "Block must have id, name, description, and prompt properties")),
        registry := registry }) ∨
    (block.complete ∧ registerBlock registry block =
      { result := .ok (), registry := putEntry registry block.entry }) := by
  by_cases h : block.incomplete
  · exact Or.inl ⟨h, registerBlock_of_incomplete registry block h⟩
  · have hc : block.complete := by
      intro field hmem
      cases hfield : field with
      | none => exact absurd ⟨field, hmem, Or.inl hfield⟩ h
      | some s =>
        refine ⟨s, rfl, ?_⟩
        rintro rfl
        exact h ⟨field, hmem, Or.inr hfield⟩
    exact Or.inr ⟨hc, registerBlock_of_complete registry block hc⟩

theorem registryState_nodup (registry : List Block) (h : RegistryState registry) :
    (registry.map Block.id).Nodup := by
  induction h with
  | initial => exact blocks_ids_nodup
  | registered registry block _ ih =>
    rcases registerBlock_cases registry block with ⟨_, hreg⟩ | ⟨_, hreg⟩
    · rw [hreg]
      exact ih
    · rw [hreg]
      exact putEntry_nodup registry block.entry ih

theorem filter_id_length (table : List Block) (id : JsString)
    (hn : (table.map Block.id).Nodup) (hm : id ∈ table.map Block.id) :
    (table.filter fun e => decide (e.id = id)).length = 1 := by
  induction table with
  | nil => simp at hm
  | cons x xs ih =>
    rw [List.map_cons, List.nodup_cons] at hn
    by_cases hx : x.id = id
    · have hxs : xs.filter (fun e => decide (e.id = id)) = [] := by
        rw [List.filter_eq_nil_iff]
        intro e he
        simp only [decide_eq_true_eq]
        rintro rfl
        exact hn.1 (hx ▸ List.mem_map.mpr ⟨e, he, rfl⟩)
      simp [List.filter_cons, hx, hxs]
    · have hm' : id ∈ xs.map Block.id := by
        rw [List.map_cons] at hm
        rcases List.mem_cons.mp hm with h | h
        · exact absurd h.symm hx
        · exact h
      simp [List.filter_cons, hx, ih hn.2 hm']

/-- C14, as stated, fails: an object in which the four properties are present,
the name being the empty text, is rejected. -/
theorem registerBlock_rejects_present_empty_name :
    BlockObject.present
        { id := some (utf16 "shout"), name := some [], description := some (utf16 "Upper case"),
          prompt := some (utf16 "Write the text in upper case."), sampleInput := none } ∧
      (registerBlock blocks
        { id := some (utf16 "shout"), name := some [], description := some (utf16 "Upper case"),
          prompt := some (utf16 "Write the text in upper case."), sampleInput := none }).result =
        .error (newError (utf16 "Block must have id, name, description, and prompt properties")) :=
  ⟨⟨rfl, rfl, rfl, rfl⟩, rfl⟩

/-- C14, amended: when one of id, name, description, prompt is missing or empty,
`registerBlock` throws the error `Block must have id, name, description, and
prompt properties` and leaves the table as it was, so that `getBlock` and
`getAllBlocks` answer as before; when the four are present and not empty it
does not throw. -/
theorem registerBlock_rejects_incomplete (registry : List Block) (block : BlockObject) :
    (block.incomplete →
      (registerBlock registry block).result =
          .error (newError
            (utf16 "Block must have id, name, description, and prompt properties")) ∧
        (registerBlock registry block).registry = registry ∧
        (∀ id, getBlock (registerBlock registry block).registry id = getBlock registry id) ∧
        getAllBlocks (registerBlock registry block).registry = getAllBlocks registry) ∧
    (block.complete → (registerBlock registry block).result = .ok ()) := by
  constructor
  · intro h
    rw [registerBlock_of_incomplete registry block h]
    exact ⟨rfl, rfl, fun _ => rfl, rfl⟩
  · intro h
    rw [registerBlock_of_complete registry block h]

theorem complete_of_fields (i n d p : JsString) (s : Option JsString)
    (hi : i ≠ []) (hn : n ≠ []) (hd : d ≠ []) (hp : p ≠ []) :
    BlockObject.complete ⟨some i, some n, some d, some p, s⟩ := by
  intro field hmem
  simp only [List.mem_cons, List.mem_singleton, List.not_mem_nil, or_false] at hmem
  rcases hmem with rfl | rfl | rfl | rfl
  · exact ⟨_, rfl, hi⟩
  · exact ⟨_, rfl, hn⟩
  · exact ⟨_, rfl, hd⟩
  · exact ⟨_, rfl, hp⟩

/-- C14, amended, on the initial table: an object without a prompt is rejected
and the table stays the same, a complete object is accepted. -/
theorem registerBlock_rejects_incomplete_witness :
    ((registerBlock blocks { shoutBlock with prompt := none }).result =
        .error (newError (utf16 "Block must have id, name, description, and prompt properties")) ∧
      (registerBlock blocks { shoutBlock with prompt := none }).registry = blocks) ∧
    (registerBlock blocks shoutBlock).result = .ok () :=
  ⟨⟨((registerBlock_rejects_incomplete blocks { shoutBlock with prompt := none }).1
        ⟨none, by simp, Or.inl rfl⟩).1,
      ((registerBlock_rejects_incomplete blocks { shoutBlock with prompt := none }).1
        ⟨none, by simp, Or.inl rfl⟩).2.1⟩,
    (registerBlock_rejects_incomplete blocks shoutBlock).2
      (complete_of_fields _ _ _ _ _ (by decide) (by decide) (by decide) (by decide))⟩

/-- C15, as stated, fails: the four properties of the object are present, the
description being the empty text; after `registerBlock` the lookup of its id
finds nothing. -/
theorem getBlock_after_rejected_registerBlock :
    BlockObject.present
        { id := some (utf16 "shout"), name := some (utf16 "shout"), description := some [],
          prompt := some (utf16 "Write the text in upper case."), sampleInput := none } ∧
      getBlock (registerBlock blocks
        { id := some (utf16 "shout"), name := some (utf16 "shout"), description := some [],
          prompt := some (utf16 "Write the text in upper case."),
          sampleInput := none }).registry (utf16 "shout") = none :=
  ⟨⟨rfl, rfl, rfl, rfl⟩, rfl⟩

/-- C15, amended: for an object `b` whose id, name, description and prompt are
present and not empty, after `registerBlock(b)` the lookup of its id returns
`b`, whatever the table was; and from a registry state, after registering `b1`
and then `b2` with the same id, the lookup returns `b2` and `getAllBlocks` holds
exactly one entry with that id. -/
theorem registerBlock_last_write_wins (registry : List Block) (b1 b2 : BlockObject)
    (h1 : b1.complete) (h2 : b2.complete) :
    getBlock (registerBlock registry b1).registry b1.entry.id = some b1.entry ∧
    (b2.entry.id = b1.entry.id →
      getBlock (registerBlock (registerBlock registry b1).registry b2).registry b1.entry.id
          = some b2.entry ∧
        (RegistryState registry →
          ((getAllBlocks (registerBlock (registerBlock registry b1).registry b2).registry).filter
            fun e => e.id = b1.entry.id).length = 1)) := by
  rw [registerBlock_of_complete _ b2 h2, registerBlock_of_complete registry b1 h1]
  refine ⟨getBlock_putEntry_self registry b1.entry, ?_⟩
  intro hid
  refine ⟨?_, ?_⟩
  · show getBlock (putEntry (putEntry registry b1.entry) b2.entry) b1.entry.id = _
    rw [← hid]
    exact getBlock_putEntry_self _ b2.entry
  · intro hstate
    show ((putEntry (putEntry registry b1.entry) b2.entry).filter
      fun e => decide (e.id = b1.entry.id)).length = 1
    have hnodup : ((putEntry (putEntry registry b1.entry) b2.entry).map Block.id).Nodup :=
      putEntry_nodup _ _ (putEntry_nodup _ _ (registryState_nodup registry hstate))
    have hget := getBlock_putEntry_self (putEntry registry b1.entry) b2.entry
    rw [hid] at hget
    generalize putEntry (putEntry registry b1.entry) b2.entry = table at hnodup hget
    have hmem : b1.entry.id ∈ table.map Block.id := by
      unfold getBlock at hget
      have hx := List.mem_of_find?_eq_some hget
      have hp := List.find?_some hget
      simp only [decide_eq_true_eq] at hp
      exact List.mem_map.mpr ⟨_, hx, hp⟩
    exact filter_id_length table b1.entry.id hnodup hmem

/-- C15, amended, on the initial table: the block `translateText` is registered
twice more. -/
theorem registerBlock_last_write_wins_witness :
    getBlock (registerBlock blocks frenchBlock).registry (utf16 "translateText") =
      some frenchBlock.entry ∧
    getBlock (registerBlock (registerBlock blocks frenchBlock).registry germanBlock).registry
        (utf16 "translateText") = some germanBlock.entry ∧
    ((getAllBlocks
        (registerBlock (registerBlock blocks frenchBlock).registry germanBlock).registry).filter
      fun e => e.id = utf16 "translateText").length = 1 :=
  have h := registerBlock_last_write_wins blocks frenchBlock germanBlock
    (complete_of_fields _ _ _ _ _ (by decide) (by decide) (by decide) (by decide))
    (complete_of_fields _ _ _ _ _ (by decide) (by decide) (by decide) (by decide))
  ⟨h.1, (h.2 rfl).1, (h.2 rfl).2 RegistryState.initial⟩

/-- C19: the ids of the initial table are unique, and every call of
`registerBlock`, thrown or not, keeps the ids unique, keeps every id that
resolved resolving, and leaves the lookup of every other id as it was. A call
that throws leaves the table unchanged; a call that returns grows the table by
exactly one entry, appended last, when the id is new, and by none when the id
exists, the new entry then taking the place of the old one while all other
entries stay where they were. -/
theorem registerBlock_keeps_invariant (registry : List Block) (block : BlockObject) :
    (blocks.map Block.id).Nodup ∧
    ((registry.map Block.id).Nodup →
      ((registerBlock registry block).registry.map Block.id).Nodup) ∧
    (∀ id, getBlock registry id ≠ none →
      getBlock (registerBlock registry block).registry id ≠ none) ∧
    (∀ id, id ≠ block.entry.id →
      getBlock (registerBlock registry block).registry id = getBlock registry id) ∧
    ((registerBlock registry block).result ≠ .ok () →
      getAllBlocks (registerBlock registry block).registry = getAllBlocks registry) ∧
    ((registerBlock registry block).result = .ok () →
      getBlock registry block.entry.id = none →
      getAllBlocks (registerBlock registry block).registry
          = getAllBlocks registry ++ [block.entry] ∧
        (getAllBlocks (registerBlock registry block).registry).length
          = (getAllBlocks registry).length + 1) ∧
    ((registerBlock registry block).result = .ok () →
      getBlock registry block.entry.id ≠ none →
      (∃ pre old post, getAllBlocks registry = pre ++ old :: post ∧
        old.id = block.entry.id ∧ (∀ x ∈ pre, x.id ≠ block.entry.id) ∧
        getAllBlocks (registerBlock registry block).registry = pre ++ block.entry :: post) ∧
      (getAllBlocks (registerBlock registry block).registry).length
        = (getAllBlocks registry).length) := by
  refine ⟨blocks_ids_nodup, ?_⟩
  rcases registerBlock_cases registry block with ⟨_, hreg⟩ | ⟨_, hreg⟩
  · rw [hreg]
    refine ⟨fun h => h, fun _ h => h, fun _ _ => rfl, fun _ => rfl, ?_, ?_⟩
    · intro h
      cases h
    · intro h
      cases h
  · rw [hreg]
    refine ⟨putEntry_nodup registry block.entry, ?_, ?_, ?_, ?_, ?_⟩
    · intro id hid
      show getBlock (putEntry registry block.entry) id ≠ none
      by_cases h : id = block.entry.id
      · rw [h, getBlock_putEntry_self]
        simp
      · rw [getBlock_putEntry_other registry block.entry id h]
        exact hid
    · intro id hid
      exact getBlock_putEntry_other registry block.entry id hid
    · intro h
      exact absurd rfl h
    · intro _ hnone
      show putEntry registry block.entry = registry ++ [block.entry] ∧
        (putEntry registry block.entry).length = registry.length + 1
      rcases putEntry_cases registry block.entry with
        ⟨pre, old, post, hr, hold, hpre, _⟩ | ⟨_, hput⟩
      · exfalso
        have := (getBlock_eq_none_iff _ _).mp hnone old (by rw [hr]; simp)
        exact this hold
      · rw [hput]
        simp
    · intro _ hsome
      show (∃ pre old post, registry = pre ++ old :: post ∧
        old.id = block.entry.id ∧ (∀ x ∈ pre, x.id ≠ block.entry.id) ∧
        putEntry registry block.entry = pre ++ block.entry :: post) ∧
        (putEntry registry block.entry).length = registry.length
      rcases putEntry_cases registry block.entry with
        ⟨pre, old, post, hr, hold, hpre, hput⟩ | ⟨hall, _⟩
      · refine ⟨⟨pre, old, post, hr, hold, hpre, hput⟩, ?_⟩
        rw [hput, hr]
        simp
      · exact absurd ((getBlock_eq_none_iff _ _).mpr hall) hsome

/-- C19 on the initial table: registering a new id appends one entry, and
registering `translateText` again keeps the six entries. -/
theorem registerBlock_keeps_invariant_witness :
    (getAllBlocks (registerBlock blocks shoutBlock).registry).length
        = (getAllBlocks blocks).length + 1 ∧
    (getAllBlocks (registerBlock blocks frenchBlock).registry).length
        = (getAllBlocks blocks).length :=
  ⟨((registerBlock_keeps_invariant blocks shoutBlock).2.2.2.2.2.1 rfl rfl).2,
    ((registerBlock_keeps_invariant blocks frenchBlock).2.2.2.2.2.2 rfl (by
      intro h
      cases h)).2⟩

/-! ## The retry loop -/

theorem attemptLoop_succ (host : Host) (net : Network) (req : Request)
    (remaining attempt : Nat) (history : List Request) (lastError : Option JsErr) :
    attemptLoop host net req (remaining + 1) attempt history lastError =
      match tryAttempt host attempt (net (req :: history)) with
      | .returned output => { result := .ok output, events := [.fetch req] }
      | .retry delay =>
        (attemptLoop host net req remaining (attempt + 1) (req :: history) lastError).after
          [.fetch req, .delay delay]
      | .thrown err =>
        if err.name = utf16 "AbortError" then
          .fail [.fetch req]
            (newError (utf16 "Request timed out. Please try again with shorter text."))
        else if includes err.message (utf16 "fetch")
            || includes err.message (utf16 "network") then
          .fail [.fetch req]
            (newError (utf16 "Unable to connect to AI service. Please check your connection."))
        else if !includes err.message (utf16 "Too many requests") then
          .fail [.fetch req] (newError (formatError err))
        else if attempt ≥ MAX_RETRIES then
          .fail [.fetch req] (newError (formatError err))
        else
          (attemptLoop host net req remaining (attempt + 1) (req :: history) (some err)).after
            [.fetch req] := by
  rw [attemptLoop]

/-- The function `executeBlock` past its three checks is the retry loop. -/
theorem executeBlock_eq_attemptLoop (host : Host) (cfg : Config) (registry : List Block)
    (net : Network) (history : List Request) (blockId : JsString) (input : JsValue)
    (block : Block) (apiKey : JsString)
    (hvalid : (validateInput host input).valid = true)
    (hblock : getBlock registry blockId = some block)
    (hkey : getApiKey cfg = some apiKey) (hne : apiKey ≠ []) :
    executeBlock host cfg registry net history blockId input =
      attemptLoop host net
        (blockRequest apiKey block ((validateInput host input).text.getD []))
        (MAX_RETRIES + 1) 0 history none := by
  unfold executeBlock
  have hk : apiKey.isEmpty = false := by
    cases apiKey with
    | nil => exact absurd rfl hne
    | cons c cs => rfl
  simp only [hvalid, hblock, hkey, hk, Bool.not_true, Bool.false_eq_true, if_false]
  rfl

/-- An attempt answered with HTTP 429 while retries are left asks for a retry
after the backoff delay. -/
theorem tryAttempt_rate_limited (host : Host) (attempt : Nat) (body : Body)
    (h : attempt < MAX_RETRIES) :
    tryAttempt host attempt (.response 429 body)
      = .retry (INITIAL_RETRY_DELAY * 2 ^ attempt) := by
  unfold tryAttempt
  simp [responseOk, h]

/-- An attempt answered with a well-formed success returns the sanitized text. -/
theorem tryAttempt_success (host : Host) (attempt status : Nat) (data : JVal)
    (content : JsValue) (s : JsString) (hok : responseOk status = true)
    (hcontent : extractContent host data = .ok content)
    (hsan : sanitizeOutput host content = .ok s) :
    tryAttempt host attempt (.response status (.json data)) = .returned s := by
  unfold tryAttempt
  simp [hok, hcontent, hsan]

theorem replicate_append_cons (n : Nat) (req : Request) (history : List Request) :
    List.replicate n req ++ req :: history = List.replicate (n + 1) req ++ history := by
  rw [List.replicate_succ', List.append_assoc]
  rfl

/-- While the service answers HTTP 429 and retries are left, the loop asks again
after each backoff delay; `final` is the run of the first attempt that is not
answered so. -/
theorem attemptLoop_backoff (host : Host) (net : Network) (req : Request)
    (lastError : Option JsErr) (final : BlockRun) :
    ∀ (count remaining attempt : Nat) (history : List Request),
      attempt + count < MAX_RETRIES + 1 → count < remaining →
      (∀ i, i < count → ∃ body,
        net (List.replicate (i + 1) req ++ history) = .response 429 body) →
      attemptLoop host net req (remaining - count) (attempt + count)
        (List.replicate count req ++ history) lastError = final →
      attemptLoop host net req remaining attempt history lastError =
        { result := final.result,
          events := (backoffEvents req count attempt).dropLast ++ final.events } := by
  intro count
  induction count with
  | zero =>
    intro remaining attempt history _ _ _ hfinal
    simp only [Nat.sub_zero, Nat.add_zero, List.replicate_zero, List.nil_append] at hfinal
    rw [hfinal]
    rfl
  | succ count ih =>
    intro remaining attempt history hlt hrem hrate hfinal
    obtain ⟨r, rfl⟩ : ∃ r, remaining = r + 1 := ⟨remaining - 1, by omega⟩
    obtain ⟨body, hbody⟩ := hrate 0 (Nat.succ_pos _)
    have hreq : List.replicate (0 + 1) req ++ history = req :: history := rfl
    rw [hreq] at hbody
    rw [attemptLoop_succ, hbody,
      tryAttempt_rate_limited host attempt body (by simp only [MAX_RETRIES] at hlt ⊢; omega)]
    simp only
    rw [ih r (attempt + 1) (req :: history) (by omega) (by omega)
      (fun i hi => by
        obtain ⟨b, hb⟩ := hrate (i + 1) (by omega)
        exact ⟨b, by rw [replicate_append_cons]; exact hb⟩)
      (by
        rw [replicate_append_cons]
        have e1 : r - count = r + 1 - (count + 1) := by omega
        have e2 : attempt + 1 + count = attempt + (count + 1) := by omega
        rw [e1, e2]
        exact hfinal)]
    cases count with
    | zero => rfl
    | succ c => rfl

theorem requestsOf_backoffEvents (req : Request) :
    ∀ count attempt, (requestsOf (backoffEvents req count attempt)).length = count + 1 := by
  intro count
  induction count with
  | zero => intro _; rfl
  | succ count ih =>
    intro attempt
    simp only [backoffEvents, requestsOf, List.length_append, List.length_singleton]
    rw [ih]

theorem delaysOf_backoffEvents (req : Request) :
    ∀ count attempt, delaysOf (backoffEvents req count attempt) =
      (List.range count).map fun n => INITIAL_RETRY_DELAY * 2 ^ (attempt + n) := by
  intro count
  induction count with
  | zero => intro _; rfl
  | succ count ih =>
    intro attempt
    simp only [backoffEvents, delaysOf]
    rw [ih, List.range_succ_eq_map, List.map_cons, List.map_map]
    congr 1
    apply List.map_congr_left
    intro n _
    simp only [Function.comp]
    congr 2
    omega

theorem backoffEvents_dropLast (req : Request) :
    ∀ count attempt,
      (backoffEvents req count attempt).dropLast ++ [.fetch req]
        = backoffEvents req count attempt := by
  intro count
  induction count with
  | zero => intro _; rfl
  | succ count ih =>
    intro attempt
    have hne : backoffEvents req count (attempt + 1) ≠ [] := by
      cases count <;> simp [backoffEvents]
    simp only [backoffEvents]
    rw [List.dropLast_cons_of_ne_nil (by simp), List.dropLast_cons_of_ne_nil hne]
    simp only [List.cons_append]
    rw [ih]

/-- C16: past its checks, when the service answers the first `k ≤ MAX_RETRIES`
attempts with HTTP 429 and the next with a well-formed success whose text the
sanitizer returns as `s`, `executeBlock` returns `s` after exactly `k + 1`
requests, each rate-limited request being followed by the wait
`INITIAL_RETRY_DELAY * 2 ^ n` for `n = 0, ..., k - 1`; when all
`MAX_RETRIES + 1 = 4` attempts are answered with HTTP 429 it throws
`Too many requests. Please wait a moment and try again.` after exactly 4
requests and the waits 2000, 4000, 8000. -/
theorem executeBlock_rate_limit_backoff (host : Host) (cfg : Config) (registry : List Block)
    (net : Network) (history : List Request) (blockId : JsString) (input : JsValue)
    (block : Block) (apiKey : JsString)
    (hvalid : (validateInput host input).valid = true)
    (hblock : getBlock registry blockId = some block)
    (hkey : getApiKey cfg = some apiKey) (hne : apiKey ≠ []) :
    (∀ k, k ≤ MAX_RETRIES →
      (∀ i, i < k → ∃ body,
        net (List.replicate (i + 1)
          (blockRequest apiKey block ((validateInput host input).text.getD [])) ++ history)
          = .response 429 body) →
      ∀ status data content s,
        net (List.replicate (k + 1)
          (blockRequest apiKey block ((validateInput host input).text.getD [])) ++ history)
          = .response status (.json data) →
        responseOk status = true → extractContent host data = .ok content →
        sanitizeOutput host content = .ok s →
        (executeBlock host cfg registry net history blockId input).result = .ok s ∧
        (requestsOf (executeBlock host cfg registry net history blockId input).events).length
          = k + 1 ∧
        delaysOf (executeBlock host cfg registry net history blockId input).events
          = (List.range k).map (fun n => INITIAL_RETRY_DELAY * 2 ^ n) ∧
        (executeBlock host cfg registry net history blockId input).events
          = backoffEvents
              (blockRequest apiKey block ((validateInput host input).text.getD [])) k 0) ∧
    ((∀ i, i ≤ MAX_RETRIES → ∃ body,
        net (List.replicate (i + 1)
          (blockRequest apiKey block ((validateInput host input).text.getD [])) ++ history)
          = .response 429 body) →
      (executeBlock host cfg registry net history blockId input).result
        = .error (newError (utf16 "Too many requests. Please wait a moment and try again.")) ∧
      (requestsOf (executeBlock host cfg registry net history blockId input).events).length
        = MAX_RETRIES + 1 ∧
      delaysOf (executeBlock host cfg registry net history blockId input).events
        = [2000, 4000, 8000]) := by
  rw [executeBlock_eq_attemptLoop host cfg registry net history blockId input block apiKey
    hvalid hblock hkey hne]
  generalize blockRequest apiKey block ((validateInput host input).text.getD []) = req
  constructor
  · intro k hk hrate status data content s hresp hok hcontent hsan
    have hhist : req :: (List.replicate k req ++ history)
        = List.replicate (k + 1) req ++ history := rfl
    have hfinal : attemptLoop host net req (MAX_RETRIES + 1 - k) (0 + k)
        (List.replicate k req ++ history) none
        = { result := .ok s, events := [.fetch req] } := by
      obtain ⟨r, hr⟩ : ∃ r, MAX_RETRIES + 1 - k = r + 1 := ⟨MAX_RETRIES - k, by omega⟩
      rw [hr, attemptLoop_succ, hhist, hresp,
        tryAttempt_success host (0 + k) status data content s hok hcontent hsan]
    rw [attemptLoop_backoff host net req none _ k (MAX_RETRIES + 1) 0 history
      (by omega) (by omega) hrate hfinal]
    show Except.ok s = Except.ok s ∧
      (requestsOf ((backoffEvents req k 0).dropLast ++ [.fetch req])).length = k + 1 ∧
      delaysOf ((backoffEvents req k 0).dropLast ++ [.fetch req])
        = (List.range k).map (fun n => INITIAL_RETRY_DELAY * 2 ^ n) ∧
      (backoffEvents req k 0).dropLast ++ [.fetch req] = backoffEvents req k 0
    rw [backoffEvents_dropLast]
    refine ⟨rfl, requestsOf_backoffEvents req k 0, ?_, rfl⟩
    rw [delaysOf_backoffEvents]
    simp only [Nat.zero_add]
  · intro hrate
    obtain ⟨body, hbody⟩ := hrate MAX_RETRIES (le_refl _)
    have hhist : req :: (List.replicate MAX_RETRIES req ++ history)
        = List.replicate (MAX_RETRIES + 1) req ++ history := rfl
    have hfinal : attemptLoop host net req (MAX_RETRIES + 1 - MAX_RETRIES) (0 + MAX_RETRIES)
        (List.replicate MAX_RETRIES req ++ history) none
        = { result := .error
              (newError (utf16 "Too many requests. Please wait a moment and try again.")),
            events := [.fetch req] } := by
      have hr : MAX_RETRIES + 1 - MAX_RETRIES = 0 + 1 := rfl
      rw [hr, attemptLoop_succ, hhist, hbody]
      rfl
    rw [attemptLoop_backoff host net req none _ MAX_RETRIES (MAX_RETRIES + 1) 0 history
      (by omega) (by omega) (fun i hi => hrate i (Nat.le_of_lt hi)) hfinal]
    show _ = _ ∧
      (requestsOf ((backoffEvents req MAX_RETRIES 0).dropLast ++ [.fetch req])).length
        = MAX_RETRIES + 1 ∧
      delaysOf ((backoffEvents req MAX_RETRIES 0).dropLast ++ [.fetch req])
        = [2000, 4000, 8000]
    rw [backoffEvents_dropLast]
    refine ⟨rfl, requestsOf_backoffEvents req MAX_RETRIES 0, ?_⟩
    rw [delaysOf_backoffEvents]
    rfl

/-- C16 on three rate-limited answers followed by a success: the text `done`
comes back after four requests and the waits 2000, 4000, 8000. -/
theorem executeBlock_rate_limit_backoff_witness :
    ForEveryHost fun host =>
      (executeBlock host sampleConfig blocks rateLimitedThrice [] (utf16 "summarizeText")
          (jsStr (utf16 "some text"))).result = .ok (utf16 "done") ∧
      (requestsOf (executeBlock host sampleConfig blocks rateLimitedThrice []
          (utf16 "summarizeText") (jsStr (utf16 "some text"))).events).length = 3 + 1 ∧
      delaysOf (executeBlock host sampleConfig blocks rateLimitedThrice []
          (utf16 "summarizeText") (jsStr (utf16 "some text"))).events
        = [2000, 4000, 8000] :=
  fun host =>
    have h := (executeBlock_rate_limit_backoff host sampleConfig blocks rateLimitedThrice []
      (utf16 "summarizeText") (jsStr (utf16 "some text"))
      ((getBlock blocks (utf16 "summarizeText")).getD
        { id := [], name := [], description := [], prompt := [], sampleInput := [] })
      (utf16 "sk-key") rfl rfl rfl (by decide)).1 3 (le_refl _)
      (fun i hi => ⟨.json .null, by
        have h3 : i = 0 ∨ i = 1 ∨ i = 2 := by omega
        rcases h3 with rfl | rfl | rfl <;> rfl⟩)
      200 _ (some (.str (utf16 "done"))) (utf16 "done") rfl rfl rfl rfl
    ⟨h.1, h.2.1, h.2.2.1⟩

/-! ## What is retried, what is validated -/

/-- C17 fails on the code: the service never answers HTTP 429, only HTTP 500
with the message `Too many requests` in the error body. The `catch` block takes
the thrown error for a rate-limit error by its message, and `executeBlock`
makes four requests, without waiting between them, before it throws. -/
theorem executeBlock_retries_without_429 :
    ForEveryHost fun host =>
      (∀ history, overloaded history =
        .response 500 (.json (.obj [(utf16 "error",
          .obj [(utf16 "message", .str (utf16 "Too many requests"))])]))) ∧
      (requestsOf (executeBlock host sampleConfig blocks overloaded [] (utf16 "summarizeText")
          (jsStr (utf16 "some text"))).events).length = 4 ∧
      delaysOf (executeBlock host sampleConfig blocks overloaded [] (utf16 "summarizeText")
          (jsStr (utf16 "some text"))).events = [] ∧
      (executeBlock host sampleConfig blocks overloaded [] (utf16 "summarizeText")
          (jsStr (utf16 "some text"))).result = .error (newError (utf16 "Too many requests")) :=
  fun _ => ⟨fun _ => rfl, rfl, rfl, rfl⟩

/-- An attempt whose `try` block throws an `AbortError`, an error whose message
contains `fetch` or `network`, or an error whose message does not contain
`Too many requests`, ends the retry loop with an error right after that
attempt: no further request and no wait. -/
theorem attemptLoop_fails_immediately (host : Host) (net : Network) (req : Request)
    (remaining attempt : Nat) (history : List Request) (lastError : Option JsErr)
    (err : JsErr)
    (hthrown : tryAttempt host attempt (net (req :: history)) = .thrown err)
    (hkind : err.name = utf16 "AbortError" ∨ includes err.message (utf16 "fetch") = true ∨
      includes err.message (utf16 "network") = true ∨
      includes err.message (utf16 "Too many requests") = false) :
    ∃ e, attemptLoop host net req (remaining + 1) attempt history lastError =
      { result := .error e, events := [.fetch req] } := by
  rw [attemptLoop_succ, hthrown]
  simp only
  by_cases h1 : err.name = utf16 "AbortError"
  · exact ⟨_, by rw [if_pos h1]; rfl⟩
  · rw [if_neg h1]
    by_cases h2 : (includes err.message (utf16 "fetch")
        || includes err.message (utf16 "network")) = true
    · exact ⟨_, by rw [if_pos h2]; rfl⟩
    · rw [if_neg h2]
      have h3 : includes err.message (utf16 "Too many requests") = false := by
        rcases hkind with h | h | h | h
        · exact absurd h h1
        · exact absurd (by rw [h]; rfl) h2
        · exact absurd (by rw [h, Bool.or_true]) h2
        · exact h
      exact ⟨_, by rw [h3]; rfl⟩

/-- An answer HTTP 401 ends the retry loop: one request, then the error. -/
theorem attemptLoop_fails_immediately_witness :
    ForEveryHost fun host =>
      ∃ e, attemptLoop host unauthorized sampleRequest (MAX_RETRIES + 1) 0 [] none =
        { result := .error e, events := [.fetch sampleRequest] } :=
  fun host =>
    attemptLoop_fails_immediately host unauthorized sampleRequest MAX_RETRIES 0 [] none
      (newError (utf16 "API key invalid. Please configure OpenRouter API key.")) rfl
      (Or.inr (Or.inr (Or.inr rfl)))

theorem executeBlock_invalid (host : Host) (cfg : Config) (registry : List Block)
    (net : Network) (history : List Request) (blockId : JsString) (input : JsValue)
    (h : (validateInput host input).valid = false) :
    executeBlock host cfg registry net history blockId input =
      { result := .error (newError ((validateInput host input).error.getD [])),
        events := [] } := by
  unfold executeBlock
  simp only [h, Bool.not_false, if_true]
  rfl

theorem requestsOf_append (a b : List Event) :
    requestsOf (a ++ b) = requestsOf b ++ requestsOf a := by
  induction a with
  | nil => simp [requestsOf]
  | cons e rest ih =>
    cases e with
    | fetch r => simp [requestsOf, ih]
    | delay ms => simp [requestsOf, ih]

/-- Every request of the retry loop is the request it was given. -/
theorem attemptLoop_requests (host : Host) (net : Network) (req : Request) :
    ∀ (remaining attempt : Nat) (history : List Request) (lastError : Option JsErr),
      ∀ r ∈ requestsOf (attemptLoop host net req remaining attempt history lastError).events,
        r = req := by
  intro remaining
  induction remaining with
  | zero =>
    intro attempt history lastError r hr
    unfold attemptLoop at hr
    cases lastError <;> simp [BlockRun.fail, requestsOf] at hr
  | succ n ih =>
    intro attempt history lastError r hr
    rw [attemptLoop_succ] at hr
    split at hr
    · simpa [requestsOf] using hr
    · simp only [BlockRun.after] at hr
      rw [requestsOf_append] at hr
      rcases List.mem_append.mp hr with h | h
      · exact ih _ _ _ r h
      · simpa [requestsOf] using h
    · split at hr
      · simpa [BlockRun.fail, requestsOf] using hr
      · split at hr
        · simpa [BlockRun.fail, requestsOf] using hr
        · split at hr
          · simpa [BlockRun.fail, requestsOf] using hr
          · split at hr
            · simpa [BlockRun.fail, requestsOf] using hr
            · simp only [BlockRun.after] at hr
              rw [requestsOf_append] at hr
              rcases List.mem_append.mp hr with h | h
              · exact ih _ _ _ r h
              · simpa [requestsOf] using h

/-- Every request of `executeBlock` carries the validated text. -/
theorem executeBlock_requests (host : Host) (cfg : Config) (registry : List Block)
    (net : Network) (history : List Request) (blockId : JsString) (input : JsValue) :
    ∀ r ∈ requestsOf (executeBlock host cfg registry net history blockId input).events,
      r.user = (validateInput host input).text.getD [] := by
  intro r hr
  unfold executeBlock at hr
  split at hr
  · simp [BlockRun.fail, requestsOf] at hr
  · split at hr
    · simp [BlockRun.fail, requestsOf] at hr
    · split at hr
      · simp [BlockRun.fail, requestsOf] at hr
      · split at hr
        · simp [BlockRun.fail, requestsOf] at hr
        · rw [attemptLoop_requests host net _ _ _ _ _ r hr]

/-- C18, as stated, fails: the first step returns a text that sanitizes to the
empty string; the second call of `executeBlock` rejects it with the validation
message and sends no request. -/
theorem executeWorkflow_rejects_blank_step_output :
    ForEveryHost fun host =>
      ∃ c d,
        (executeWorkflow host sampleConfig blocks blankService
          (some [utf16 "summarizeText", utf16 "translateText"])
          (jsStr (utf16 "some text"))).calls = [c, d] ∧
        c.run.result = .ok [] ∧ d.input = [] ∧ d.run.events = [] ∧
        d.run.result = .error (newError (utf16 "Please enter some text to transform.")) ∧
        (executeWorkflow host sampleConfig blocks blankService
          (some [utf16 "summarizeText", utf16 "translateText"])
          (jsStr (utf16 "some text"))).outcome =
          .error (newError (utf16
            "Workflow failed at step 2 (translateText): Please enter some text to transform.")) :=
  fun host =>
    ⟨{ blockId := utf16 "summarizeText", input := utf16 "some text",
       run := executeBlock host sampleConfig blocks blankService [] (utf16 "summarizeText")
         (jsStr (utf16 "some text")) },
     { blockId := utf16 "translateText", input := [],
       run := { result := .error (newError (utf16 "Please enter some text to transform.")),
                events := [] } },
     rfl, rfl, rfl, rfl, rfl, rfl⟩

/-- C18, amended: `executeWorkflow` passes the output of a step unchanged to the
next call of `executeBlock`, and that call validates it: an output that is blank
or longer than the maximum makes the next step fail with the validation message
before any request, and otherwise every request of the next step carries the
trimmed output as the user text. -/
theorem executeWorkflow_step_output_validated (host : Host) (cfg : Config)
    (registry : List Block) (net : Network) (blockIds : Option (List JsString))
    (input : JsValue) (j : Nat) (c d : Call)
    (hc : (executeWorkflow host cfg registry net blockIds input).calls[j]? = some c)
    (hd : (executeWorkflow host cfg registry net blockIds input).calls[j + 1]? = some d) :
    c.run.result = .ok d.input ∧
    ((validateInput host (jsStr d.input)).valid = false →
      d.run.events = [] ∧
      d.run.result = .error (newError ((validateInput host (jsStr d.input)).error.getD []))) ∧
    ((validateInput host (jsStr d.input)).valid = true →
      ∀ r ∈ requestsOf d.run.events, r.user = trim d.input) := by
  unfold executeWorkflow at hc hd
  rcases executeWorkflowWith_cases host registry (executeBlock host cfg registry net)
    blockIds input with ⟨hcalls, _, _⟩ | ⟨ids, t, _, _, _, _, _, hrun⟩
  · rw [hcalls] at hc
    simp at hc
  · rw [hrun] at hc hd
    have hchain := runSteps_chain host registry (executeBlock host cfg registry net)
      ids 0 (trim t) [] [] j c d hc hd
    obtain ⟨h, hdrun⟩ := runSteps_calls_run host registry
      (executeBlock host cfg registry net) ids 0 (trim t) [] [] d
      (List.mem_iff_getElem?.mpr ⟨j + 1, hd⟩)
    refine ⟨hchain, ?_, ?_⟩
    · intro hv
      rw [hdrun, executeBlock_invalid host cfg registry net h d.blockId _ hv]
      exact ⟨rfl, rfl⟩
    · intro hv r hr
      rw [hdrun] at hr
      rw [executeBlock_requests host cfg registry net h d.blockId _ r hr]
      obtain ⟨t', ht', htext⟩ := validateInput_valid host _ hv
      rw [htext]
      cases ht'
      rfl

/-- C18, amended, on a run of two steps: the second call receives the output
`done` of the first and sends it as the user text. -/
theorem executeWorkflow_step_output_validated_witness :
    ForEveryHost fun host =>
      ∃ c d : Call,
        (executeWorkflow host sampleConfig blocks steadyService
          (some [utf16 "summarizeText", utf16 "translateText"])
          (jsStr (utf16 "some text"))).calls = [c, d] ∧
        c.run.result = .ok d.input ∧ d.input = utf16 "done" ∧
        ∀ r ∈ requestsOf d.run.events, r.user = trim d.input :=
  fun host =>
    have h := executeWorkflow_step_output_validated host sampleConfig blocks steadyService
      (some [utf16 "summarizeText", utf16 "translateText"]) (jsStr (utf16 "some text")) 0
      { blockId := utf16 "summarizeText", input := utf16 "some text",
        run := executeBlock host sampleConfig blocks steadyService [] (utf16 "summarizeText")
          (jsStr (utf16 "some text")) }
      { blockId := utf16 "translateText", input := utf16 "done",
        run := executeBlock host sampleConfig blocks steadyService
          (requestsOf (executeBlock host sampleConfig blocks steadyService []
            (utf16 "summarizeText") (jsStr (utf16 "some text"))).events)
          (utf16 "translateText") (jsStr (utf16 "done")) }
      rfl rfl
    ⟨_, _, rfl, h.1, rfl, h.2.2 rfl⟩

end PromptBlocks
